import Mathlib

/-!
# Verification of the Palmtree run-data decoder

A shallow embedding of `src/Python/palmtree.py` (`load_data`, `__read_packages`,
`_allocate_array`) and `src/Python/misc.py` (`allocate_array`).

A file is a `List Nat` of byte values.  The Python file object is modelled by an
explicit cursor: `read(n)` returns the available bytes and advances the cursor as
Python does (reads clamp at end of file, relative seeks do not).  Integers read with
`int.from_bytes(..., 'little')` become `leVal` of the byte slice; doubles are kept as
their raw 8-byte little-endian bit patterns (the decoder never computes with them).
Python exceptions are modelled with `Except PyErr`; the blanket `except Exception`
of `load_data` maps any error to the `(None, None)` result.

The header dict is a structure of `Option` fields: a field is present in the dict
iff it is `some`.  The numpy matrix is a `Mat` of `Cell` values together with a
ghost list `writes` recording every cell assignment that was performed; slice
assignments clip to the matrix extent and raise `valueError` on a broadcast
mismatch, exactly as numpy does.  `load_data` also carries two ghost outputs: the
list of allocation requests handed to `_allocate_array`, and the final file cursor
after the data-decoding loop.
-/

set_option maxRecDepth 10000

namespace Palmtree

/-! ## Byte-level primitives -/

/-- Value of a little-endian byte list, as produced by `int.from_bytes(bs, 'little')`.
A short or empty list is fine (Python returns the value of whatever bytes exist). -/
def leVal : List Nat → Nat
  | [] => 0
  | b :: bs => b + 256 * leVal bs

/-- The bytes `file.read(n)` returns when the cursor is at `pos`. -/
def readN (f : List Nat) (pos n : Nat) : List Nat :=
  (f.drop pos).take n

/-- The cursor after `file.read(n)` from `pos`: a read clamps at end of file, and a
cursor already beyond the end stays where it is. -/
def afterRead (f : List Nat) (pos n : Nat) : Nat :=
  max pos (min (pos + n) f.length)

/-- Python exceptions that the decoder can raise. -/
inductive PyErr where
  | typeError
  | structError
  | valueError
  | indexError
  | zeroDivisionError
  | unicodeDecodeError
  | nameError
  deriving DecidableEq, Repr

/-- `bytes.decode('ascii')`: raises `UnicodeDecodeError` on any byte above 127.
The decoded string is kept as its byte list. -/
def pyDecodeAscii (bs : List Nat) : Except PyErr (List Nat) :=
  if bs.all (fun b => b < 128) then .ok bs else .error .unicodeDecodeError

/-- `str.lower()` on an ASCII byte list. -/
def pyLower (bs : List Nat) : List Nat :=
  bs.map (fun b => if 65 ≤ b ∧ b ≤ 90 then b + 32 else b)

/-- The bytes of the string `"src"`. -/
def srcCode : List Nat := [115, 114, 99]

/-- The bytes of the string `"dat"`. -/
def datCode : List Nat := [100, 97, 116]

/-- `bytes.split('\t')` (tab is byte 9); an empty input yields one empty field. -/
def splitTabAux : List Nat → List Nat → List (List Nat)
  | [], cur => [cur.reverse]
  | b :: rest, cur =>
      if b = 9 then cur.reverse :: splitTabAux rest []
      else splitTabAux rest (b :: cur)

/-- `column_names.decode('ascii').split('\t')` on the raw bytes. -/
def splitTab (bs : List Nat) : List (List Nat) := splitTabAux bs []

/-- Python `max` on a nonempty list. -/
def maxList (x : Nat) (xs : List Nat) : Nat := xs.foldl max x

/-! ## The header dict

Each field of the Python header dict becomes an `Option` field: the field is in
the dict iff the option is `some`.  `load_data` only ever stores these keys. -/

structure Header where
  file_size : Option Nat := none
  version : Option Nat := none
  code : Option (List Nat) := none
  run_start_epoch : Option Nat := none
  file_start_epoch : Option Nat := none
  includes_source_input_time : Option Bool := none
  sample_rate : Option Nat := none
  num_playback_streams : Option Nat := none
  num_streams : Option Nat := none
  stream_data_types : Option (List Nat) := none
  stream_samples_per_package : Option (List Nat) := none
  num_columns : Option Nat := none
  column_names_size : Option Nat := none
  column_names : Option (List (List Nat)) := none
  pos_data_start : Option Nat := none
  row_size : Option Int := none
  num_rows : Option Int := none
  total_samples : Option Nat := none
  total_packages : Option Nat := none
  max_samples_stream : Option Nat := none
  deriving DecidableEq, Repr

/-- The per-stream loop of lines 82-84: for each stream read a 1-byte data type and a
2-byte samples-per-package count.  Returns the two lists in stream order and the
cursor after the loop. -/
def readStreamDetails (f : List Nat) : Nat → Nat → List Nat → List Nat →
    List Nat × List Nat × Nat
  | 0, pos, types, spp => (types.reverse, spp.reverse, pos)
  | n + 1, pos, types, spp =>
      let t := leVal (readN f pos 1)
      let pos1 := afterRead f pos 1
      let s := leVal (readN f pos1 2)
      let pos2 := afterRead f pos1 2
      readStreamDetails f n pos2 (t :: types) (s :: spp)

/-- Lines 86-92 of `load_data`: `num_columns`, `column_names_size`, the column
names (an ASCII decode that can raise), and `pos_data_start`.  The earlier
header values arrive as arguments. -/
def parseStage4 (f : List Nat) (version : Nat) (code : List Nat)
    (runStart fileStart : Option Nat) (inclTime : Option Bool)
    (sampleRate numPlayback : Nat) (numStreams : Option Nat)
    (types spp : Option (List Nat)) (p9 : Nat) : Except PyErr Header :=
  let numColumns := leVal (readN f p9 4)
  let p10 := afterRead f p9 4
  let colNamesSize := leVal (readN f p10 4)
  let p11 := afterRead f p10 4
  match pyDecodeAscii (readN f p11 colNamesSize) with
  | .error e => .error e
  | .ok names =>
    .ok { file_size := some f.length
          version := some version
          code := some code
          run_start_epoch := runStart
          file_start_epoch := fileStart
          includes_source_input_time := inclTime
          sample_rate := some sampleRate
          num_playback_streams := some numPlayback
          num_streams := numStreams
          stream_data_types := types
          stream_samples_per_package := spp
          num_columns := some numColumns
          column_names_size := some colNamesSize
          column_names := some (splitTab names)
          pos_data_start := some (afterRead f p11 colNamesSize) }

/-- Lines 77-84 of `load_data`: for versions 2/3 read `num_streams` and the
per-stream details. -/
def parseStage3 (f : List Nat) (version : Nat) (code : List Nat)
    (runStart fileStart : Option Nat) (inclTime : Option Bool)
    (sampleRate numPlayback : Nat) (p7 : Nat) : Except PyErr Header :=
  let numStreams := if version = 2 ∨ version = 3 then some (leVal (readN f p7 4)) else none
  let p8 := if version = 2 ∨ version = 3 then afterRead f p7 4 else p7
  let details :=
    if version = 2 ∨ version = 3 then readStreamDetails f (numStreams.getD 0) p8 [] []
    else ([], [], p8)
  parseStage4 f version code runStart fileStart inclTime sampleRate numPlayback numStreams
    (if version = 2 ∨ version = 3 then some details.1 else none)
    (if version = 2 ∨ version = 3 then some details.2.1 else none)
    details.2.2

/-- Lines 74-75 of `load_data`: `sample_rate` is read with
`struct.unpack('<d', file.read(8))`, which raises `struct.error` when fewer
than 8 bytes remain; then `num_playback_streams`. -/
def parseStage2 (f : List Nat) (version : Nat) (code : List Nat)
    (runStart fileStart : Option Nat) (inclTime : Option Bool) (p5 : Nat) :
    Except PyErr Header :=
  let srBytes := readN f p5 8
  if srBytes.length = 8 then
    let p6 := afterRead f p5 8
    let numPlayback := leVal (readN f p6 4)
    let p7 := afterRead f p6 4
    parseStage3 f version code runStart fileStart inclTime (leVal srBytes) numPlayback p7
  else .error .structError

/-- `load_data` lines 48-92: parse the file preamble into the header dict.

Version check (lines 56-59): on a version tag outside {1,2,3} the code evaluates
`'Error: unknown data version ' + header['version']`, which concatenates a `str`
with an `int` and raises `TypeError` before the `return header, None` on line 59
can run; the error is modelled here and the return statement is unreachable. -/
def parseHeader (f : List Nat) : Except PyErr Header :=
  let version := leVal (readN f 0 4)
  let p1 := afterRead f 0 4
  if version = 1 ∨ version = 2 ∨ version = 3 then
    match pyDecodeAscii (readN f p1 3) with
    | .error e => .error e
    | .ok code =>
      let p2 := afterRead f p1 3
      let runStart := if version = 2 ∨ version = 3 then some (leVal (readN f p2 8)) else none
      let p3 := if version = 2 ∨ version = 3 then afterRead f p2 8 else p2
      let fileStart := if version = 2 ∨ version = 3 then some (leVal (readN f p3 8)) else none
      let p4 := if version = 2 ∨ version = 3 then afterRead f p3 8 else p3
      let inclTime :=
        if pyLower code = srcCode ∧ version = 3 then some (decide (leVal (readN f p4 1) ≠ 0))
        else none
      let p5 := if pyLower code = srcCode ∧ version = 3 then afterRead f p4 1 else p4
      parseStage2 f version code runStart fileStart inclTime p5
  else .error .typeError

/-- Lines 98-103: 0 = source, 1 = pipeline, 2 = plugin. -/
def fileTypeOf (code : List Nat) : Nat :=
  if pyLower code = srcCode then 0 else if pyLower code = datCode then 1 else 2

/-! ## The numpy matrix

Cells hold the NaN fill, an integer stored into the float64 matrix, or the raw bit
pattern of a double read from the file.  `writes` is a ghost log of every cell
assignment performed, used to state that untouched cells keep their fill value. -/

inductive Cell where
  | nan
  | intVal (n : Nat)
  | bits (b : Nat)
  deriving DecidableEq, Repr

structure Mat where
  rows : Nat
  cols : Nat
  cells : List (List Cell)
  writes : List (Nat × Nat)
  deriving DecidableEq, Repr

def Mat.get (m : Mat) (i j : Nat) : Cell :=
  (m.cells.getD i []).getD j Cell.nan

/-- Assign one cell and log the write.  Out-of-range indices leave `cells`
unchanged (`List.set` ignores them); the callers below only pass clipped
in-range indices. -/
def Mat.setCell (m : Mat) (i j : Nat) (v : Cell) : Mat :=
  { m with cells := m.cells.set i ((m.cells.getD i []).set j v)
           writes := (i, j) :: m.writes }

/-- Every cell not recorded in the ghost write log still holds the NaN fill. -/
def NanOutside (m : Mat) : Prop :=
  ∀ i j, (i, j) ∉ m.writes → m.get i j = Cell.nan

/-- `data[r0:r1, c0:c1] = scalar`: slices clip to the matrix extent and a scalar
broadcasts to any target shape, so this never raises. -/
def Mat.setRectScalar (m : Mat) (r0 r1 c0 c1 : Nat) (v : Cell) : Mat :=
  (List.range' (min r0 m.rows) (min r1 m.rows - min r0 m.rows)).foldl
    (fun acc i =>
      (List.range' (min c0 m.cols) (min c1 m.cols - min c0 m.cols)).foldl
        (fun acc2 j => acc2.setCell i j v) acc)
    m

/-- `data[r0:r1, c0:c1] = vals` for a 2-D `vals` of numpy shape `(sh, sw)` (the
shape is carried explicitly, since a numpy array of zero rows still has a
column count): the target slice clips to the matrix extent; the source must
match the clipped target shape in each dimension or have extent 1 there
(numpy broadcasting), else `ValueError`. -/
def Mat.setRect (m : Mat) (r0 r1 c0 c1 : Nat) (vals : List (List Cell)) (sh sw : Nat) :
    Except PyErr Mat :=
  let tr0 := min r0 m.rows
  let th := min r1 m.rows - tr0
  let tc0 := min c0 m.cols
  let tw := min c1 m.cols - tc0
  if (sh = th ∨ sh = 1) ∧ (sw = tw ∨ sw = 1) then
    .ok ((List.range' 0 th).foldl
      (fun acc di =>
        (List.range' 0 tw).foldl
          (fun acc2 dj =>
            acc2.setCell (tr0 + di) (tc0 + dj)
              ((vals.getD (if sh = 1 then 0 else di) []).getD
                (if sw = 1 then 0 else dj) Cell.nan))
          acc)
      m)
  else .error .valueError

/-- `data[i, c0:c1] = vals` for a 1-D `vals`: the row index must be in range
(`IndexError` otherwise), the column slice clips, and the source length must
match the clipped width or be 1. -/
def Mat.setRowSeg (m : Mat) (i : Nat) (c0 c1 : Nat) (vals : List Cell) :
    Except PyErr Mat :=
  if i < m.rows then
    let tc0 := min c0 m.cols
    let tw := min c1 m.cols - tc0
    if vals.length = tw ∨ vals.length = 1 then
      .ok ((List.range' 0 tw).foldl
        (fun acc dj =>
          acc.setCell i (tc0 + dj) (vals.getD (if vals.length = 1 then 0 else dj) Cell.nan))
        m)
    else .error .valueError
  else .error .indexError

/-- `data[i, j] = v` with plain integer indices: `IndexError` when out of range. -/
def Mat.setAt (m : Mat) (i j : Nat) (v : Cell) : Except PyErr Mat :=
  if i < m.rows ∧ j < m.cols then .ok (m.setCell i j v) else .error .indexError

/-- Split a flat cell list into rows of width `k`; `n` is the number of rows. -/
def splitRowsAux (k : Nat) : Nat → List Cell → List (List Cell)
  | 0, _ => []
  | n + 1, vals => vals.take k :: splitRowsAux k n (vals.drop k)

/-- `np.reshape(vals, (-1, k))`: `ValueError` when `k = 0` (the unknown dimension
cannot be inferred) or when the length is not a multiple of `k`. -/
def npReshapeCols (vals : List Cell) (k : Nat) : Except PyErr (List (List Cell)) :=
  if k = 0 then .error .valueError
  else if vals.length % k ≠ 0 then .error .valueError
  else .ok (splitRowsAux k (vals.length / k) vals)

/-- `np.fromfile(file, dtype='<d', count=n)` at cursor `pos`: reads as many whole
doubles as are available, up to `count`, and advances the cursor by the bytes
consumed (numpy does not raise on a short read). -/
def fromfileDoubles (f : List Nat) (pos count : Nat) : List Cell × Nat :=
  let items := min count ((f.length - pos) / 8)
  ((List.range' 0 items).map (fun i => Cell.bits (leVal (readN f (pos + 8 * i) 8))),
   pos + items * 8)

/-! ## Allocators -/

/-- Bytes needed by a float64 matrix of the given shape (`ndarray.nbytes`). -/
def bytesNeeded (rows cols : Nat) : Nat := rows * cols * 8

/-- An all-NaN matrix, as produced by `np.empty` followed by `fill(np.nan)`. -/
def freshMat (rows cols : Nat) : Mat :=
  { rows := rows
    cols := cols
    cells := List.replicate rows (List.replicate cols Cell.nan)
    writes := [] }

/-- `palmtree._allocate_array(dimensions, fill_value=np.nan, dtype='float64',
check_mem=False)`: `np.empty` raises `ValueError` on a negative dimension;
only when `check_mem` is true is available memory compared with the bytes
needed before the fill, with the `MemoryError` caught and reported as `None`.
Both call sites in `load_data` leave `check_mem` at its default `False`. -/
def allocate_array (rows : Int) (cols : Nat) (checkMem : Bool) (avail : Nat) :
    Except PyErr (Option Mat) :=
  if rows < 0 then .error .valueError
  else if checkMem ∧ avail ≤ bytesNeeded rows.toNat cols then .ok none
  else .ok (some (freshMat rows.toNat cols))

end Palmtree

namespace Misc

/-- `misc.allocate_array(dimensions, fill_value=np.nan, dtype='float64')`:
always compares available memory with the bytes needed before filling, and
returns `None` (via the caught `MemoryError`) when it is insufficient. -/
def allocate_array (rows cols avail : Nat) : Option Palmtree.Mat :=
  if avail ≤ Palmtree.bytesNeeded rows cols then none
  else some (Palmtree.freshMat rows cols)

end Misc

namespace Palmtree

/-! ## The two-pass package scanner (`__read_packages`, lines 180-373)

One function serves both passes, selected by `readData`, exactly as in the source.
Ghost state: `trace` records the byte offset of every package header and every
chunk header visited (the "byte-offset walk"); `wf` starts `true` and is cleared
whenever a tolerated-partial-package discard is taken, a chunk declares zero
streams, or a chunk's sample count differs from the first chunk of its package.
`lastNs` models the Python local `num_samples`, which persists across loop
iterations and is `none` while still unassigned (using it then is a `NameError`). -/

structure ScanCtx where
  f : List Nat
  fileSize : Nat
  phs : Nat
  dnhc : Nat
  numStreams : Nat
  maxSS : Nat
  fileType : Nat
  includesTime : Bool
  deriving Repr

structure ScanSt where
  pos : Nat
  hdr : Header
  rowIndex : Nat
  mat : Option Mat
  lastNs : Option Nat
  trace : List Nat
  wf : Bool
  deriving DecidableEq, Repr

inductive ChunkOut where
  | exit (st : ScanSt) (si : Nat)
  | stop (st : ScanSt)
  deriving DecidableEq, Repr

def ChunkOut.toSt : ChunkOut → ScanSt
  | .exit st _ => st
  | .stop st => st

/-- The sample-chunk loop (lines 239-274).  `si` is `stream_index`.  Both passes
read the 4-byte chunk header.  If the declared value region fits, pass 2 reads
and stores it while pass 1 seeks past it.  If it does not fit, pass 1 returns
`(True, None)` at once (`.stop`), discarding the package; pass 2 has no such
return and falls through to `stream_index += num_streams`, continuing the scan
with the cursor still at the end of the chunk header. -/
def chunkLoop (ctx : ScanCtx) (readData : Bool) :
    Nat → ScanSt → Nat → Option Nat → Except PyErr ChunkOut
  | 0, st, si, _ => .ok (.exit st si)
  | fuel + 1, st, si, pkgNs =>
    if si < ctx.numStreams ∧ st.pos + 4 ≤ ctx.fileSize then
      let cn := leVal (readN ctx.f st.pos 2)
      let pA := afterRead ctx.f st.pos 2
      let cs := leVal (readN ctx.f pA 2)
      let pB := afterRead ctx.f pA 2
      let nv := cn * cs
      let st1 := { st with pos := pB, lastNs := some cs
                           trace := st.trace ++ [st.pos]
                           wf := st.wf && decide (cn ≠ 0) && decide (pkgNs.getD cs = cs) }
      let pkgNs1 := some (pkgNs.getD cs)
      if pB + nv * 8 ≤ ctx.fileSize then
        if readData then
          let fv := fromfileDoubles ctx.f pB nv
          match npReshapeCols fv.1 cn with
          | .error e => .error e
          | .ok rect =>
            match st1.mat with
            | none => .error .typeError
            | some m =>
              match m.setRect st1.rowIndex (st1.rowIndex + cs)
                  (ctx.dnhc + si) (ctx.dnhc + si + cn) rect (fv.1.length / cn) cn with
              | .error e => .error e
              | .ok m1 =>
                chunkLoop ctx readData fuel { st1 with pos := fv.2, mat := some m1 }
                  (si + cn) pkgNs1
        else
          chunkLoop ctx readData fuel { st1 with pos := pB + nv * 8 } (si + cn) pkgNs1
      else
        if readData then
          chunkLoop ctx readData fuel { st1 with wf := false } (si + cn) pkgNs1
        else
          .ok (.stop { st1 with wf := false })
    else .ok (.exit st si)

/-- Lines 298-305 (materializing pass, chunked layout, after the chunk loop):
broadcast the package id and elapsed time over the rows reserved for this
package and advance the row index by the Python local `num_samples` — a
`NameError` when no chunk was ever read in this call. -/
def chunkFinish (sampleId : Nat) (elapsed : Cell) (st1 : ScanSt) : Except PyErr ScanSt :=
  match st1.lastNs with
  | none => .error .nameError
  | some ns =>
    match st1.mat with
    | none => .error .typeError
    | some m =>
      let mA := m.setRectScalar st1.rowIndex (st1.rowIndex + ns) 0 1 (Cell.intVal sampleId)
      let mB := mA.setRectScalar st1.rowIndex (st1.rowIndex + ns) 1 2 elapsed
      .ok { st1 with mat := some mB, rowIndex := st1.rowIndex + ns }

/-- Lines 276-293 (counting pass, chunked layout, after the chunk loop): when
the accumulated stream count matches, add the Python local `num_samples` (the
LAST chunk's sample count) to `total_samples`; otherwise discard the package
and end the scan successfully (the returned flag is false). -/
def chunkCount (numStreams : Nat) (st1 : ScanSt) (si : Nat) : Except PyErr (Bool × ScanSt) :=
  if si = numStreams then
    match st1.lastNs with
    | none => .error .nameError
    | some ns =>
      .ok (true, { st1 with hdr := { st1.hdr with
        total_samples := some (st1.hdr.total_samples.getD 0 + ns)
        total_packages := some (st1.hdr.total_packages.getD 0 + 1) } })
  else .ok (false, { st1 with wf := false })

/-- Lines 330-354 (materializing pass, flat layout): store the id, elapsed time
and, when included, the source-input time, then the flat value block of this
package, and advance the row index by `num_samples`. -/
def flatRead (ctx : ScanCtx) (sampleId : Nat) (elapsed srcTime : Cell)
    (ns nv pD : Nat) (st1 : ScanSt) : Except PyErr ScanSt :=
  match st1.mat with
  | none => .error .typeError
  | some m =>
    if ns = 1 then
      match m.setAt st1.rowIndex 0 (Cell.intVal sampleId) with
      | .error e => .error e
      | .ok mA =>
        match mA.setAt st1.rowIndex 1 elapsed with
        | .error e => .error e
        | .ok mB =>
          match (if ctx.includesTime then mB.setAt st1.rowIndex 2 srcTime else .ok mB) with
          | .error e => .error e
          | .ok mC =>
            let fv := fromfileDoubles ctx.f pD nv
            match mC.setRowSeg st1.rowIndex ctx.dnhc (ctx.dnhc + ctx.numStreams) fv.1 with
            | .error e => .error e
            | .ok mD =>
              .ok { st1 with pos := fv.2, mat := some mD, rowIndex := st1.rowIndex + 1 }
    else
      let mA := m.setRectScalar st1.rowIndex (st1.rowIndex + ns) 0 1 (Cell.intVal sampleId)
      let mB := mA.setRectScalar st1.rowIndex (st1.rowIndex + ns) 1 2 elapsed
      let mC :=
        if ctx.includesTime then mB.setRectScalar st1.rowIndex (st1.rowIndex + ns) 2 3 srcTime
        else mB
      let fv := fromfileDoubles ctx.f pD nv
      match npReshapeCols fv.1 ctx.numStreams with
      | .error e => .error e
      | .ok rect =>
        match mC.setRect st1.rowIndex (st1.rowIndex + ns) ctx.dnhc
            (ctx.dnhc + ctx.numStreams) rect (fv.1.length / ctx.numStreams) ctx.numStreams with
        | .error e => .error e
        | .ok mD =>
          .ok { st1 with pos := fv.2, mat := some mD, rowIndex := st1.rowIndex + ns }

/-- Lines 356-364 (counting pass, flat layout): count the samples and the
package and seek past the value block. -/
def flatCount (ns nv pD : Nat) (st1 : ScanSt) : ScanSt :=
  { st1 with
    hdr := { st1.hdr with
      total_samples := some (st1.hdr.total_samples.getD 0 + ns)
      total_packages := some (st1.hdr.total_packages.getD 0 + 1) }
    pos := pD + nv * 8 }

/-- The sample-package loop (lines 217-371).  Pass 2 reads the package id and
elapsed time (and source-input time when included) with `struct.unpack`; pass 1
seeks past them.  The chunked branch (pipeline data with some stream declaring
more than one sample per package) delegates to `chunkLoop` and then to
`chunkFinish`/`chunkCount`; the flat branch reads the 2-byte sample count from
the package header (source) or fixes it at 1 (pipeline) and delegates to
`flatRead`/`flatCount`; a flat value region that does not fit ends BOTH passes
successfully (line 370). -/
def pkgLoop (ctx : ScanCtx) (readData : Bool) : Nat → ScanSt → Except PyErr ScanSt
  | 0, st => .ok st
  | fuel + 1, st =>
    if st.pos + ctx.phs ≤ ctx.fileSize then
      let st0 := { st with trace := st.trace ++ [st.pos] }
      let sampleId := leVal (readN ctx.f st0.pos 4)
      let pA := afterRead ctx.f st0.pos 4
      let eBytes := readN ctx.f pA 8
      let pB := afterRead ctx.f pA 8
      let tBytes := readN ctx.f pB 8
      let pC := afterRead ctx.f pB 8
      let hdrEnd :=
        if readData then (if ctx.includesTime then pC else pB)
        else st0.pos + (if ctx.includesTime then 20 else 12)
      if readData = true ∧ (eBytes.length ≠ 8 ∨ (ctx.includesTime = true ∧ tBytes.length ≠ 8))
      then .error .structError
      else
        let elapsed := Cell.bits (leVal eBytes)
        let srcTime := Cell.bits (leVal tBytes)
        if ctx.fileType = 1 ∧ ctx.maxSS > 1 then
          match chunkLoop ctx readData fuel { st0 with pos := hdrEnd } 0 none with
          | .error e => .error e
          | .ok (.stop st1) => .ok st1
          | .ok (.exit st1 si) =>
            if readData then
              match chunkFinish sampleId elapsed st1 with
              | .error e => .error e
              | .ok st2 => pkgLoop ctx readData fuel st2
            else
              match chunkCount ctx.numStreams st1 si with
              | .error e => .error e
              | .ok (cont, st2) =>
                if cont then pkgLoop ctx readData fuel st2 else .ok st2
        else
          let ns := if ctx.fileType = 0 then leVal (readN ctx.f hdrEnd 2) else 1
          let pD := if ctx.fileType = 0 then afterRead ctx.f hdrEnd 2 else hdrEnd
          let nv := if ctx.fileType = 0 then ctx.numStreams * ns else ctx.numStreams
          let st1 := { st0 with pos := pD, lastNs := some ns }
          if pD + nv * 8 ≤ ctx.fileSize then
            if readData then
              match flatRead ctx sampleId elapsed srcTime ns nv pD st1 with
              | .error e => .error e
              | .ok st2 => pkgLoop ctx readData fuel st2
            else
              pkgLoop ctx readData fuel (flatCount ns nv pD st1)
          else
            .ok { st1 with wf := false }
    else .ok st

structure ScanResult where
  success : Bool
  mat : Option Mat
  hdr : Header
  pos : Nat
  rowIndex : Nat
  lastNs : Option Nat
  trace : List Nat
  wf : Bool
  allocs : List (Int × Nat)
  deriving DecidableEq, Repr

/-- `__read_packages(file, header, file_type, read_data)` (lines 180-373).
Determines the package-header size from the file type (returning
`(False, None)` for the plugin type, line 202), allocates the matrix sized by
`header['total_samples']` when reading data (lines 205-211), seeks to
`pos_data_start` and runs the package loop.  `allocs` is a ghost log of the
allocation requests made. -/
def readPackages (f : List Nat) (hdr : Header) (fileType : Nat) (readData : Bool)
    (avail : Nat) : Except PyErr ScanResult :=
  let includesTime := decide (fileType = 0) && hdr.includes_source_input_time.getD false
  let fileSize := hdr.file_size.getD 0
  let startPos := hdr.pos_data_start.getD 0
  if fileType = 0 ∨ fileType = 1 then
    let phs := if fileType = 0 then (if includesTime then 22 else 14) else 12
    let dnhc := if fileType = 0 then (if includesTime then 3 else 2) else 2
    let ctx : ScanCtx :=
      { f := f, fileSize := fileSize, phs := phs, dnhc := dnhc
        numStreams := hdr.num_streams.getD 0, maxSS := hdr.max_samples_stream.getD 0
        fileType := fileType, includesTime := includesTime }
    let st0 : ScanSt :=
      { pos := startPos, hdr := hdr, rowIndex := 0, mat := none, lastNs := none
        trace := [], wf := true }
    if readData then
      let dims : Int × Nat := ((hdr.total_samples.getD 0 : Int), hdr.num_streams.getD 0 + dnhc)
      match allocate_array dims.1 dims.2 false avail with
      | .error e => .error e
      | .ok none =>
        .ok { success := false, mat := none, hdr := hdr, pos := startPos, rowIndex := 0
              lastNs := none, trace := [], wf := true, allocs := [dims] }
      | .ok (some m) =>
        match pkgLoop ctx true (fileSize + 1) { st0 with mat := some m } with
        | .error e => .error e
        | .ok st =>
          .ok { success := true, mat := st.mat, hdr := st.hdr, pos := st.pos
                rowIndex := st.rowIndex, lastNs := st.lastNs, trace := st.trace
                wf := st.wf, allocs := [dims] }
    else
      match pkgLoop ctx false (fileSize + 1) st0 with
      | .error e => .error e
      | .ok st =>
        .ok { success := true, mat := st.mat, hdr := st.hdr, pos := st.pos
              rowIndex := st.rowIndex, lastNs := st.lastNs, trace := st.trace
              wf := st.wf, allocs := [] }
  else
    .ok { success := false, mat := none, hdr := hdr, pos := startPos, rowIndex := 0
          lastNs := none, trace := [], wf := true, allocs := [] }

/-! ## Version-1 fixed-row decoding and `load_data` itself -/

/-- The version-1 row loop (lines 129-136): for each row read a 4-byte sample id
into column 0 and `num_columns - 1` doubles into the rest of the row.  The first
argument counts the remaining rows, `i` is the current row index.  Returns the
matrix and the cursor after the loop. -/
def v1RowLoop (f : List Nat) (nc : Nat) : Nat → Nat → Nat → Mat → Except PyErr (Mat × Nat)
  | 0, _, pos, m => .ok (m, pos)
  | n + 1, i, pos, m =>
    let sid := leVal (readN f pos 4)
    let pA := afterRead f pos 4
    match m.setAt i 0 (Cell.intVal sid) with
    | .error e => .error e
    | .ok m1 =>
      let fv := fromfileDoubles f pA (nc - 1)
      match m1.setRowSeg i 1 nc fv.1 with
      | .error e => .error e
      | .ok m2 => v1RowLoop f nc n (i + 1) fv.2 m2

/-- The result of `load_data`: the returned `(header, data)` pair plus two ghost
outputs — the allocation requests made, and the file cursor after the
data-decoding loop (`none` when no data was read). -/
structure LoadResult where
  header : Option Header
  data : Option Mat
  allocs : List (Int × Nat)
  finalPos : Option Nat
  deriving DecidableEq, Repr

/-- The body of `load_data` inside its `try` (lines 48-165).  For version 1,
`row_size` can be negative (`num_columns = 0` with source/pipeline kind) or zero
(plugin kind with `num_columns = 0`, a `ZeroDivisionError`); `floor((file_size -
pos_data_start) / row_size)` is modelled as exact floored integer division.  For
versions 2/3, `max(stream_samples_per_package)` raises `ValueError` on an empty
list (line 148); then pass 1 runs, and pass 2 only when data was requested. -/
def load_data_go (f : List Nat) (read_data : Bool) (avail : Nat) :
    Except PyErr LoadResult :=
  match parseHeader f with
  | .error e => .error e
  | .ok hdr0 =>
    let fileType := fileTypeOf (hdr0.code.getD [])
    if hdr0.version = some 1 then
      let nc := hdr0.num_columns.getD 0
      let rs : Int :=
        if fileType = 0 ∨ fileType = 1 then 4 + 8 * ((nc : Int) - 1) else 8 * (nc : Int)
      if rs = 0 then .error .zeroDivisionError
      else
        let nr : Int := Int.fdiv ((f.length : Int) - (hdr0.pos_data_start.getD 0 : Int)) rs
        let hdr1 := { hdr0 with row_size := some rs, num_rows := some nr }
        if read_data then
          match allocate_array nr nc false avail with
          | .error e => .error e
          | .ok none =>
            .ok { header := some hdr1, data := none, allocs := [(nr, nc)], finalPos := none }
          | .ok (some m) =>
            match v1RowLoop f nc nr.toNat 0 (hdr1.pos_data_start.getD 0) m with
            | .error e => .error e
            | .ok md =>
              .ok { header := some hdr1, data := some md.1, allocs := [(nr, nc)]
                    finalPos := some md.2 }
        else .ok { header := some hdr1, data := none, allocs := [], finalPos := none }
    else
      let hdr1 := { hdr0 with total_samples := some 0, total_packages := some 0 }
      match hdr1.stream_samples_per_package.getD [] with
      | [] => .error .valueError
      | s :: ss =>
        let hdr2 := { hdr1 with max_samples_stream := some (maxList s ss) }
        match readPackages f hdr2 fileType false avail with
        | .error e => .error e
        | .ok r1 =>
          if r1.success then
            if read_data then
              match readPackages f r1.hdr fileType true avail with
              | .error e => .error e
              | .ok r2 =>
                if r2.success then
                  .ok { header := some r2.hdr, data := r2.mat, allocs := r2.allocs
                        finalPos := some r2.pos }
                else
                  .ok { header := some r2.hdr, data := none, allocs := r2.allocs
                        finalPos := none }
            else .ok { header := some r1.hdr, data := none, allocs := [], finalPos := none }
          else .ok { header := some r1.hdr, data := none, allocs := [], finalPos := none }

/-- `load_data(filepath, read_data)` (lines 22-177): the blanket exception
handlers (lines 167-177) turn any raised exception into `(None, None)`. -/
def load_data (f : List Nat) (read_data : Bool) (avail : Nat) : LoadResult :=
  match load_data_go f read_data avail with
  | .ok r => r
  | .error _ => { header := none, data := none, allocs := [], finalPos := none }

/-! ## Concrete files used as test vectors -/

def zeros (n : Nat) : List Nat := List.replicate n 0

/-- A complete (untruncated) version-2 pipeline file with 2 streams declaring 3
and 2 samples per package, whose single package holds two complete chunks of
differing sample counts: chunk A is 1 stream × 3 samples, chunk B is 1 stream ×
2 samples; every declared byte is present and the accumulated stream count
matches `num_streams`. -/
def chunkDiffFile : List Nat :=
  [2, 0, 0, 0] ++ datCode ++ zeros 16 ++ zeros 8 ++ zeros 4 ++
  [2, 0, 0, 0] ++ [1, 3, 0] ++ [1, 2, 0] ++ zeros 4 ++ zeros 4 ++
  ([1, 0, 0, 0] ++ zeros 8) ++ ([1, 0, 3, 0] ++ zeros 24) ++ ([1, 0, 2, 0] ++ zeros 16)

/-- A version-2 pipeline file with 1 stream declaring 5 samples per package,
truncated mid-chunk: the single package's chunk declares 5 samples (40 value
bytes) but only 32 bytes follow the chunk header. -/
def truncChunkFile : List Nat :=
  [2, 0, 0, 0] ++ datCode ++ zeros 16 ++ zeros 8 ++ zeros 4 ++
  [1, 0, 0, 0] ++ [1, 5, 0] ++ zeros 4 ++ zeros 4 ++
  ([1, 0, 0, 0] ++ zeros 8) ++ [1, 0, 5, 0] ++
  (zeros 12 ++ [1, 0, 2, 0] ++ zeros 16)

/-- A version-2 pipeline file with 2 streams declaring 1 and 2 samples per
package: one package with chunk A = 1 stream × 1 sample and chunk B = 1 stream
× 2 samples, so the package spans 2 rows but chunk A only fills row 0. -/
def ascChunkFile : List Nat :=
  [2, 0, 0, 0] ++ datCode ++ zeros 16 ++ zeros 8 ++ zeros 4 ++
  [2, 0, 0, 0] ++ [1, 1, 0] ++ [1, 2, 0] ++ zeros 4 ++ zeros 4 ++
  ([7, 0, 0, 0] ++ zeros 8) ++ ([1, 0, 1, 0] ++ zeros 8) ++ ([1, 0, 2, 0] ++ zeros 16)

/-- A version-2 pipeline file with 3 streams all declaring 1 sample per package
(flat layout) and one complete package. -/
def flatFile : List Nat :=
  [2, 0, 0, 0] ++ datCode ++ zeros 16 ++ zeros 8 ++ zeros 4 ++
  [3, 0, 0, 0] ++ [1, 1, 0] ++ [1, 1, 0] ++ [1, 1, 0] ++ zeros 4 ++ zeros 4 ++
  ([1, 0, 0, 0] ++ zeros 8 ++ zeros 24)

/-- A version-2 pipeline file with 2 streams both declaring 2 samples per
package and two complete packages, each one chunk of 2 streams × 2 samples:
chunked layout with a uniform chunk sample count. -/
def wfChunkFile : List Nat :=
  [2, 0, 0, 0] ++ datCode ++ zeros 16 ++ zeros 8 ++ zeros 4 ++
  [2, 0, 0, 0] ++ [1, 2, 0] ++ [1, 2, 0] ++ zeros 4 ++ zeros 4 ++
  ([1, 0, 0, 0] ++ zeros 8 ++ [2, 0, 2, 0] ++ zeros 32) ++
  ([2, 0, 0, 0] ++ zeros 8 ++ [2, 0, 2, 0] ++ zeros 32)

/-- A version-1 plugin-kind file (`code = "plg"`) with 1 column and 8 data
bytes: `row_size = 8`, `num_rows = 1`, but each decoded row consumes only
4 bytes (the 4-byte id plus 0 doubles). -/
def pluginV1File : List Nat :=
  [1, 0, 0, 0] ++ [112, 108, 103] ++ zeros 8 ++ zeros 4 ++
  [1, 0, 0, 0] ++ zeros 4 ++ zeros 8

/-- A version-1 source file with 2 columns and 25 data bytes: `row_size = 12`,
`num_rows = 2`, 24 bytes consumed, one trailing byte unread. -/
def srcV1File : List Nat :=
  [1, 0, 0, 0] ++ srcCode ++ zeros 8 ++ zeros 4 ++ [2, 0, 0, 0] ++ zeros 4 ++ zeros 25

/-- A version-2 file (plugin-kind code `"xyz"`) declaring `num_streams = 0`. -/
def zeroStreamFile : List Nat :=
  [2, 0, 0, 0] ++ [120, 121, 122] ++ zeros 16 ++ zeros 8 ++ zeros 4 ++
  zeros 4 ++ zeros 4 ++ zeros 4

/-- A version-3 source file with `includes_source_input_time = true`, one
stream at 1 sample per package, and no package data. -/
def srcV3File : List Nat :=
  [3, 0, 0, 0] ++ srcCode ++ zeros 16 ++ [1] ++ zeros 8 ++ zeros 4 ++
  [1, 0, 0, 0] ++ [1, 1, 0] ++ zeros 4 ++ zeros 4

/-- The header `load_data` hands to pass 1 on `wfChunkFile`: the parsed header
with the counters initialised and `max_samples_stream` set (lines 144-148). -/
def wfChunkHdr : Header :=
  { (parseHeader wfChunkFile).toOption.getD {} with
    total_samples := some 0, total_packages := some 0, max_samples_stream := some 2 }

/-- The pass-1 scan result on `wfChunkFile`. -/
def wfChunkScan : ScanResult :=
  (readPackages wfChunkFile wfChunkHdr 1 false 0).toOption.getD
    ⟨false, none, {}, 0, 0, none, [], false, []⟩

/-- The header returned by a header-only load of `srcV3File`. -/
def srcV3Hdr : Header := (load_data srcV3File false 0).header.getD {}

/-- The header returned by a full load of `flatFile`. -/
def flatHdr : Header := (load_data flatFile true 0).header.getD {}

/-- The parsed header of `zeroStreamFile`. -/
def zeroStreamHdr : Header := (parseHeader zeroStreamFile).toOption.getD {}

/-- The parsed header of `srcV1File`. -/
def srcV1Hdr : Header := (parseHeader srcV1File).toOption.getD {}

/-- The matrix returned by a full load of `ascChunkFile`. -/
def ascChunkMat : Mat := (load_data ascChunkFile true 0).data.getD (freshMat 0 0)

/-- Agreement of two headers on every field except the two counters that the
counting pass accumulates (`total_samples`, `total_packages`). -/
def HdrSame (g h : Header) : Prop :=
  h.file_size = g.file_size ∧ h.version = g.version ∧ h.code = g.code ∧
  h.run_start_epoch = g.run_start_epoch ∧ h.file_start_epoch = g.file_start_epoch ∧
  h.includes_source_input_time = g.includes_source_input_time ∧
  h.sample_rate = g.sample_rate ∧ h.num_playback_streams = g.num_playback_streams ∧
  h.num_streams = g.num_streams ∧ h.stream_data_types = g.stream_data_types ∧
  h.stream_samples_per_package = g.stream_samples_per_package ∧
  h.num_columns = g.num_columns ∧ h.column_names_size = g.column_names_size ∧
  h.column_names = g.column_names ∧ h.pos_data_start = g.pos_data_start ∧
  h.row_size = g.row_size ∧ h.num_rows = g.num_rows ∧
  h.max_samples_stream = g.max_samples_stream

/-- The combined shape of facts preserved by every matrix write. -/
def WritePres (m m2 : Mat) : Prop :=
  m2.rows = m.rows ∧ m2.cols = m.cols ∧ (NanOutside m → NanOutside m2)

/-- A scanner state whose matrix, if any, is NaN outside its logged writes. -/
def StNan (st : ScanSt) : Prop :=
  ∀ m, st.mat = some m → NanOutside m

/-- The conditionally gated header fields are present exactly when their
gating condition holds: the epochs and the three stream descriptors iff the
version is 2 or 3, and `includes_source_input_time` iff the kind is "src"
(case-insensitive) at version 3. -/
def GatedOk (h : Header) : Prop :=
  ∃ v c, h.version = some v ∧ h.code = some c ∧
    (h.run_start_epoch.isSome ↔ (v = 2 ∨ v = 3)) ∧
    (h.file_start_epoch.isSome ↔ (v = 2 ∨ v = 3)) ∧
    (h.num_streams.isSome ↔ (v = 2 ∨ v = 3)) ∧
    (h.stream_data_types.isSome ↔ (v = 2 ∨ v = 3)) ∧
    (h.stream_samples_per_package.isSome ↔ (v = 2 ∨ v = 3)) ∧
    (h.includes_source_input_time.isSome ↔ (pyLower c = srcCode ∧ v = 3))

/-! ## Lemmas about the matrix operations -/

theorem foldl_preserves {α β : Type} (P : β → Prop) (g : β → α → β)
    (h : ∀ b x, P b → P (g b x)) : ∀ (l : List α) (b : β), P b → P (l.foldl g b) := by
  intro l
  induction l with
  | nil => intro b hb; exact hb
  | cons x xs ih => intro b hb; exact ih _ (h b x hb)

theorem Mat.rows_setCell (m : Mat) (i j : Nat) (v : Cell) :
    (m.setCell i j v).rows = m.rows := rfl

theorem Mat.cols_setCell (m : Mat) (i j : Nat) (v : Cell) :
    (m.setCell i j v).cols = m.cols := rfl

theorem Mat.get_setCell_ne (m : Mat) (i j a b : Nat) (v : Cell)
    (h : ¬ (a = i ∧ b = j)) : (m.setCell i j v).get a b = m.get a b := by
  unfold Mat.setCell Mat.get
  simp only [List.getD_eq_getElem?_getD, List.getElem?_set]
  by_cases hai : i = a
  · subst hai
    have hbj : ¬ j = b := fun hb => h ⟨rfl, hb.symm⟩
    by_cases hlen : i < m.cells.length
    · simp only [if_pos rfl, if_pos hlen, if_true, Option.getD_some,
        List.getD_eq_getElem?_getD, List.getElem?_set, if_neg hbj]
    · rw [if_pos rfl, if_neg hlen]
      have hc : m.cells[i]? = none := List.getElem?_eq_none_iff.mpr (Nat.le_of_not_lt hlen)
      rw [hc]
  · rw [if_neg hai]

/-- The single-cell write preserves the NaN-outside-writes invariant. -/
theorem nanOutside_setCell (m : Mat) (i j : Nat) (v : Cell) (h : NanOutside m) :
    NanOutside (m.setCell i j v) := by
  intro a b hab
  have h1 : ¬ (a = i ∧ b = j) := by
    intro he
    exact hab (by simp [Mat.setCell, he.1, he.2])
  have h2 : (a, b) ∉ m.writes := by
    intro hm
    exact hab (by simp [Mat.setCell, hm])
  rw [Mat.get_setCell_ne _ _ _ _ _ _ h1]
  exact h a b h2

theorem writePres_setCell (m b : Mat) (i j : Nat) (v : Cell) (h : WritePres m b) :
    WritePres m (b.setCell i j v) := by
  obtain ⟨h1, h2, h3⟩ := h
  exact ⟨h1, h2, fun hn => nanOutside_setCell _ _ _ _ (h3 hn)⟩

theorem writePres_rfl (m : Mat) : WritePres m m := ⟨rfl, rfl, fun h => h⟩

theorem writePres_setRectScalar (m : Mat) (r0 r1 c0 c1 : Nat) (v : Cell) :
    WritePres m (m.setRectScalar r0 r1 c0 c1 v) := by
  unfold Mat.setRectScalar
  apply foldl_preserves (WritePres m)
  · intro b i hb
    apply foldl_preserves (WritePres m)
    · intro b2 j hb2
      exact writePres_setCell m b2 i j v hb2
    · exact hb
  · exact writePres_rfl m

theorem writePres_foldlRect (m : Mat) (rows cols : List Nat) (pick : Nat → Nat → Cell)
    (tr0 tc0 : Nat) :
    WritePres m (rows.foldl
      (fun acc di => cols.foldl
        (fun acc2 dj => acc2.setCell (tr0 + di) (tc0 + dj) (pick di dj)) acc) m) := by
  apply foldl_preserves (WritePres m)
  · intro b di hb
    apply foldl_preserves (WritePres m)
    · intro b2 dj hb2
      exact writePres_setCell m b2 _ _ _ hb2
    · exact hb
  · exact writePres_rfl m

theorem Mat.setRect_ok (m : Mat) (r0 r1 c0 c1 : Nat) (vals : List (List Cell)) (sh sw : Nat)
    (hc : (sh = min r1 m.rows - min r0 m.rows ∨ sh = 1) ∧
          (sw = min c1 m.cols - min c0 m.cols ∨ sw = 1)) :
    ∃ m2, m.setRect r0 r1 c0 c1 vals sh sw = .ok m2 ∧ WritePres m m2 := by
  refine ⟨_, ?_, writePres_foldlRect m (List.range' 0 (min r1 m.rows - min r0 m.rows))
    (List.range' 0 (min c1 m.cols - min c0 m.cols))
    (fun di dj => (vals.getD (if sh = 1 then 0 else di) []).getD
      (if sw = 1 then 0 else dj) Cell.nan) (min r0 m.rows) (min c0 m.cols)⟩
  simp only [Mat.setRect, if_pos hc]

theorem Mat.setRect_writePres (m m2 : Mat) (r0 r1 c0 c1 : Nat) (vals : List (List Cell))
    (sh sw : Nat) (h : m.setRect r0 r1 c0 c1 vals sh sw = .ok m2) : WritePres m m2 := by
  simp only [Mat.setRect] at h
  by_cases hc : (sh = min r1 m.rows - min r0 m.rows ∨ sh = 1) ∧
      (sw = min c1 m.cols - min c0 m.cols ∨ sw = 1)
  · rw [if_pos hc] at h
    cases h
    exact writePres_foldlRect m _ _ _ _ _
  · rw [if_neg hc] at h
    cases h

theorem Mat.setRowSeg_ok (m : Mat) (i c0 c1 : Nat) (vals : List Cell)
    (hi : i < m.rows)
    (hlen : vals.length = min c1 m.cols - min c0 m.cols ∨ vals.length = 1) :
    ∃ m2, m.setRowSeg i c0 c1 vals = .ok m2 ∧ WritePres m m2 := by
  refine ⟨(List.range' 0 (min c1 m.cols - min c0 m.cols)).foldl
      (fun acc dj => acc.setCell i (min c0 m.cols + dj)
        (vals.getD (if vals.length = 1 then 0 else dj) Cell.nan)) m, ?_, ?_⟩
  · simp only [Mat.setRowSeg, if_pos hi, if_pos hlen]
  · apply foldl_preserves (WritePres m)
    · intro b dj hb
      exact writePres_setCell m b _ _ _ hb
    · exact writePres_rfl m

theorem Mat.setRowSeg_writePres (m m2 : Mat) (i c0 c1 : Nat) (vals : List Cell)
    (h : m.setRowSeg i c0 c1 vals = .ok m2) : WritePres m m2 := by
  simp only [Mat.setRowSeg] at h
  by_cases hi : i < m.rows
  · rw [if_pos hi] at h
    by_cases hlen : vals.length = min c1 m.cols - min c0 m.cols ∨ vals.length = 1
    · rw [if_pos hlen] at h
      cases h
      apply foldl_preserves (WritePres m)
      · intro b dj hb
        exact writePres_setCell m b _ _ _ hb
      · exact writePres_rfl m
    · rw [if_neg hlen] at h
      cases h
  · rw [if_neg hi] at h
    cases h

theorem Mat.setAt_ok (m : Mat) (i j : Nat) (v : Cell) (hi : i < m.rows) (hj : j < m.cols) :
    ∃ m2, m.setAt i j v = .ok m2 ∧ WritePres m m2 := by
  refine ⟨_, ?_, writePres_setCell m m i j v (writePres_rfl m)⟩
  simp only [Mat.setAt, if_pos (show i < m.rows ∧ j < m.cols from ⟨hi, hj⟩)]

theorem Mat.setAt_writePres (m m2 : Mat) (i j : Nat) (v : Cell)
    (h : m.setAt i j v = .ok m2) : WritePres m m2 := by
  simp only [Mat.setAt] at h
  by_cases hij : i < m.rows ∧ j < m.cols
  · rw [if_pos hij] at h
    cases h
    exact writePres_setCell m m i j v (writePres_rfl m)
  · rw [if_neg hij] at h
    cases h

/-! ## Lemmas about the byte primitives and the header parser -/

theorem afterRead_le (f : List Nat) (pos n : Nat) (h : pos ≤ f.length) :
    afterRead f pos n ≤ f.length := by
  unfold afterRead
  exact max_le h (min_le_right _ _)

theorem afterRead_eq (f : List Nat) (pos n : Nat) (h : pos + n ≤ f.length) :
    afterRead f pos n = pos + n := by
  unfold afterRead
  rw [min_eq_left h]
  exact max_eq_right (Nat.le_add_right _ _)

theorem readN_length (f : List Nat) (pos n : Nat) :
    (readN f pos n).length = min n (f.length - pos) := by
  unfold readN
  rw [List.length_take, List.length_drop]

theorem readN_length_of_le (f : List Nat) (pos n : Nat) (h : pos + n ≤ f.length) :
    (readN f pos n).length = n := by
  rw [readN_length]
  exact min_eq_left (Nat.le_sub_of_add_le (by omega))

theorem fromfileDoubles_pos (f : List Nat) (pos k : Nat) (h : pos + k * 8 ≤ f.length) :
    (fromfileDoubles f pos k).2 = pos + k * 8 := by
  unfold fromfileDoubles
  have hk : min k ((f.length - pos) / 8) = k := by
    refine min_eq_left (Nat.le_div_iff_mul_le (by norm_num) |>.mpr ?_)
    omega
  rw [hk]

theorem fromfileDoubles_length (f : List Nat) (pos k : Nat) (h : pos + k * 8 ≤ f.length) :
    (fromfileDoubles f pos k).1.length = k := by
  unfold fromfileDoubles
  have hk : min k ((f.length - pos) / 8) = k := by
    refine min_eq_left (Nat.le_div_iff_mul_le (by norm_num) |>.mpr ?_)
    omega
  simp [hk]

theorem readStreamDetails_pos_le (f : List Nat) :
    ∀ (n pos : Nat) (ts ss : List Nat), pos ≤ f.length →
      (readStreamDetails f n pos ts ss).2.2 ≤ f.length := by
  intro n
  induction n with
  | zero => intro pos ts ss h; exact h
  | succ k ih =>
    intro pos ts ss h
    exact ih _ _ _ (afterRead_le _ _ _ (afterRead_le _ _ _ h))

theorem readStreamDetails_spp_length (f : List Nat) :
    ∀ (n pos : Nat) (ts ss : List Nat),
      (readStreamDetails f n pos ts ss).2.1.length = ss.length + n := by
  intro n
  induction n with
  | zero => intro pos ts ss; simp [readStreamDetails]
  | succ k ih =>
    intro pos ts ss
    unfold readStreamDetails
    rw [ih]
    simp
    omega

theorem parseStage4_ok {f : List Nat} {version : Nat} {code : List Nat}
    {runStart fileStart : Option Nat} {inclTime : Option Bool}
    {sampleRate numPlayback : Nat} {numStreams : Option Nat}
    {types spp : Option (List Nat)} {p9 : Nat} {h : Header}
    (hp : parseStage4 f version code runStart fileStart inclTime sampleRate numPlayback
      numStreams types spp p9 = .ok h) :
    ∃ names,
      h = { file_size := some f.length
            version := some version
            code := some code
            run_start_epoch := runStart
            file_start_epoch := fileStart
            includes_source_input_time := inclTime
            sample_rate := some sampleRate
            num_playback_streams := some numPlayback
            num_streams := numStreams
            stream_data_types := types
            stream_samples_per_package := spp
            num_columns := some (leVal (readN f p9 4))
            column_names_size := some (leVal (readN f (afterRead f p9 4) 4))
            column_names := some (splitTab names)
            pos_data_start := some (afterRead f (afterRead f (afterRead f p9 4) 4)
              (leVal (readN f (afterRead f p9 4) 4))) } := by
  simp only [parseStage4] at hp
  split at hp
  case h_1 => cases hp
  case h_2 names hnm =>
    cases hp
    exact ⟨names, rfl⟩

/-- The facts about a successfully parsed header needed by the claims: a valid
version tag, `file_size` equal to the real byte count, a data-start offset
within the file, the gated fields present exactly under their gating
conditions, the per-stream list as long as `num_streams`, and the derived
fields still absent. -/
theorem parseStage3_ok {f : List Nat} {version : Nat} {code : List Nat}
    {runStart fileStart : Option Nat} {inclTime : Option Bool}
    {sampleRate numPlayback p7 : Nat} {h : Header}
    (hlen : p7 ≤ f.length)
    (hp : parseStage3 f version code runStart fileStart inclTime sampleRate numPlayback p7
      = .ok h) :
    h.version = some version ∧ h.code = some code ∧ h.file_size = some f.length ∧
    h.run_start_epoch = runStart ∧ h.file_start_epoch = fileStart ∧
    h.includes_source_input_time = inclTime ∧
    (h.num_streams.isSome ↔ (version = 2 ∨ version = 3)) ∧
    (h.stream_data_types.isSome ↔ (version = 2 ∨ version = 3)) ∧
    (h.stream_samples_per_package.isSome ↔ (version = 2 ∨ version = 3)) ∧
    (∀ n, h.num_streams = some n →
      ∃ l, h.stream_samples_per_package = some l ∧ l.length = n) ∧
    (∃ p, h.pos_data_start = some p ∧ p ≤ f.length) ∧
    h.row_size = none ∧ h.num_rows = none ∧ h.total_samples = none ∧
    h.total_packages = none ∧ h.max_samples_stream = none := by
  simp only [parseStage3] at hp
  by_cases hv : version = 2 ∨ version = 3
  · simp only [if_pos hv] at hp
    obtain ⟨names, rfl⟩ := parseStage4_ok hp
    have hbound : (readStreamDetails f (leVal (readN f p7 4)) (afterRead f p7 4) [] []).2.2
        ≤ f.length :=
      readStreamDetails_pos_le f _ _ _ _ (afterRead_le f p7 4 hlen)
    refine ⟨rfl, rfl, rfl, rfl, rfl, rfl, by simp [hv], by simp [hv], by simp [hv],
      ?_, ?_, rfl, rfl, rfl, rfl, rfl⟩
    · intro n hn
      simp only [Option.some.injEq] at hn
      refine ⟨_, rfl, ?_⟩
      rw [readStreamDetails_spp_length]
      simpa using hn
    · exact ⟨_, rfl, afterRead_le f _ _ (afterRead_le f _ _ (afterRead_le f _ _ hbound))⟩
  · simp only [if_neg hv] at hp
    obtain ⟨names, rfl⟩ := parseStage4_ok hp
    refine ⟨rfl, rfl, rfl, rfl, rfl, rfl, by simp [hv], by simp [hv], by simp [hv],
      ?_, ?_, rfl, rfl, rfl, rfl, rfl⟩
    · intro n hn
      cases hn
    · exact ⟨_, rfl, afterRead_le f _ _ (afterRead_le f _ _ (afterRead_le f _ _ hlen))⟩

theorem parseStage2_ok {f : List Nat} {version : Nat} {code : List Nat}
    {runStart fileStart : Option Nat} {inclTime : Option Bool} {p5 : Nat} {h : Header}
    (hlen : p5 ≤ f.length)
    (hp : parseStage2 f version code runStart fileStart inclTime p5 = .ok h) :
    h.version = some version ∧ h.code = some code ∧ h.file_size = some f.length ∧
    h.run_start_epoch = runStart ∧ h.file_start_epoch = fileStart ∧
    h.includes_source_input_time = inclTime ∧
    (h.num_streams.isSome ↔ (version = 2 ∨ version = 3)) ∧
    (h.stream_data_types.isSome ↔ (version = 2 ∨ version = 3)) ∧
    (h.stream_samples_per_package.isSome ↔ (version = 2 ∨ version = 3)) ∧
    (∀ n, h.num_streams = some n →
      ∃ l, h.stream_samples_per_package = some l ∧ l.length = n) ∧
    (∃ p, h.pos_data_start = some p ∧ p ≤ f.length) ∧
    h.row_size = none ∧ h.num_rows = none ∧ h.total_samples = none ∧
    h.total_packages = none ∧ h.max_samples_stream = none := by
  simp only [parseStage2] at hp
  split at hp
  case isTrue hsr =>
    exact parseStage3_ok (afterRead_le f _ _ (afterRead_le f _ _ hlen)) hp
  case isFalse => cases hp

/-- Composite parse lemma: every successful `parseHeader` yields a header with a
valid version, correct `file_size`, an in-file data-start offset, gated fields
present iff gated, and stream lists of the declared length. -/
theorem parseHeader_ok {f : List Nat} {h : Header} (hp : parseHeader f = .ok h) :
    ∃ v c p, h.version = some v ∧ (v = 1 ∨ v = 2 ∨ v = 3) ∧ h.code = some c ∧
      h.file_size = some f.length ∧ h.pos_data_start = some p ∧ p ≤ f.length ∧
      (h.run_start_epoch.isSome ↔ (v = 2 ∨ v = 3)) ∧
      (h.file_start_epoch.isSome ↔ (v = 2 ∨ v = 3)) ∧
      (h.num_streams.isSome ↔ (v = 2 ∨ v = 3)) ∧
      (h.stream_data_types.isSome ↔ (v = 2 ∨ v = 3)) ∧
      (h.stream_samples_per_package.isSome ↔ (v = 2 ∨ v = 3)) ∧
      (h.includes_source_input_time.isSome ↔ (pyLower c = srcCode ∧ v = 3)) ∧
      (∀ n, h.num_streams = some n →
        ∃ l, h.stream_samples_per_package = some l ∧ l.length = n) ∧
      h.row_size = none ∧ h.num_rows = none ∧ h.total_samples = none ∧
      h.total_packages = none ∧ h.max_samples_stream = none := by
  simp only [parseHeader] at hp
  split at hp
  case isTrue hver =>
    split at hp
    case h_1 => cases hp
    case h_2 code hcode =>
      have hp1 : afterRead f 0 4 ≤ f.length := afterRead_le f 0 4 (Nat.zero_le _)
      have hp2 : afterRead f (afterRead f 0 4) 3 ≤ f.length := afterRead_le f _ 3 hp1
      have hp4 : (if leVal (readN f 0 4) = 2 ∨ leVal (readN f 0 4) = 3 then
          afterRead f (if leVal (readN f 0 4) = 2 ∨ leVal (readN f 0 4) = 3 then
            afterRead f (afterRead f (afterRead f 0 4) 3) 8
          else afterRead f (afterRead f 0 4) 3) 8
        else if leVal (readN f 0 4) = 2 ∨ leVal (readN f 0 4) = 3 then
          afterRead f (afterRead f (afterRead f 0 4) 3) 8
        else afterRead f (afterRead f 0 4) 3) ≤ f.length := by
        by_cases hv : leVal (readN f 0 4) = 2 ∨ leVal (readN f 0 4) = 3 <;>
          simp only [if_pos, if_neg, hv, if_true, if_false] <;>
          first
          | exact afterRead_le f _ _ (afterRead_le f _ _ hp2)
          | exact hp2
      have hp5 : (if pyLower code = srcCode ∧ leVal (readN f 0 4) = 3 then
          afterRead f (if leVal (readN f 0 4) = 2 ∨ leVal (readN f 0 4) = 3 then
            afterRead f (if leVal (readN f 0 4) = 2 ∨ leVal (readN f 0 4) = 3 then
              afterRead f (afterRead f (afterRead f 0 4) 3) 8
            else afterRead f (afterRead f 0 4) 3) 8
          else if leVal (readN f 0 4) = 2 ∨ leVal (readN f 0 4) = 3 then
            afterRead f (afterRead f (afterRead f 0 4) 3) 8
          else afterRead f (afterRead f 0 4) 3) 1
        else if leVal (readN f 0 4) = 2 ∨ leVal (readN f 0 4) = 3 then
          afterRead f (if leVal (readN f 0 4) = 2 ∨ leVal (readN f 0 4) = 3 then
            afterRead f (afterRead f (afterRead f 0 4) 3) 8
          else afterRead f (afterRead f 0 4) 3) 8
        else if leVal (readN f 0 4) = 2 ∨ leVal (readN f 0 4) = 3 then
          afterRead f (afterRead f (afterRead f 0 4) 3) 8
        else afterRead f (afterRead f 0 4) 3) ≤ f.length := by
      { by_cases hs : pyLower code = srcCode ∧ leVal (readN f 0 4) = 3
        · rw [if_pos hs]
          exact afterRead_le f _ _ hp4
        · rw [if_neg hs]
          exact hp4 }
      obtain ⟨h1, h2, h3, h4, h5, h6, h7, h8, h9, h10, ⟨p, hpp, hple⟩, h11⟩ :=
        parseStage2_ok hp5 hp
      refine ⟨leVal (readN f 0 4), code, p, h1, hver, h2, h3, hpp, hple,
        ?_, ?_, h7, h8, h9, ?_, h10, h11⟩
      · rw [h4]
        by_cases hv : leVal (readN f 0 4) = 2 ∨ leVal (readN f 0 4) = 3 <;> simp [hv]
      · rw [h5]
        by_cases hv : leVal (readN f 0 4) = 2 ∨ leVal (readN f 0 4) = 3 <;> simp [hv]
      · rw [h6]
        by_cases hs : pyLower code = srcCode ∧ leVal (readN f 0 4) = 3 <;> simp [hs]
  case isFalse => cases hp

/-! ## Frame and monotonicity lemmas for the scanner loops -/

/-- `chunkLoop` never touches the header dict or the matrix write index. -/
theorem chunkLoop_frame (ctx : ScanCtx) (rd : Bool) :
    ∀ (fuel : Nat) (st : ScanSt) (si : Nat) (p : Option Nat) (out : ChunkOut),
      chunkLoop ctx rd fuel st si p = .ok out →
      out.toSt.hdr = st.hdr ∧ out.toSt.rowIndex = st.rowIndex := by
  intro fuel
  induction fuel with
  | zero =>
    intro st si p out h
    simp only [chunkLoop] at h
    cases h
    exact ⟨rfl, rfl⟩
  | succ k ih =>
    intro st si p out h
    simp only [chunkLoop] at h
    split at h
    case isTrue hc =>
      split at h
      case isTrue hb =>
        split at h
        case isTrue hrd =>
          split at h
          case h_1 => cases h
          case h_2 rect hrect =>
            split at h
            case h_1 => cases h
            case h_2 m hm =>
              split at h
              case h_1 => cases h
              case h_2 m1 hm1 =>
                simpa using ih _ _ _ _ h
        case isFalse hrd =>
          simpa using ih _ _ _ _ h
      case isFalse hb =>
        split at h
        case isTrue hrd =>
          simpa using ih _ _ _ _ h
        case isFalse hrd =>
          cases h
          exact ⟨rfl, rfl⟩
    case isFalse hc =>
      cases h
      exact ⟨rfl, rfl⟩

/-- In the counting pass `chunkLoop` leaves the matrix slot untouched. -/
theorem chunkLoop_mat_count (ctx : ScanCtx) :
    ∀ (fuel : Nat) (st : ScanSt) (si : Nat) (p : Option Nat) (out : ChunkOut),
      chunkLoop ctx false fuel st si p = .ok out → out.toSt.mat = st.mat := by
  intro fuel
  induction fuel with
  | zero =>
    intro st si p out h
    simp only [chunkLoop] at h
    cases h
    rfl
  | succ k ih =>
    intro st si p out h
    simp only [chunkLoop, Bool.false_eq_true, if_false] at h
    split at h
    case isTrue hc =>
      split at h
      case isTrue hb => simpa using ih _ _ _ _ h
      case isFalse hb =>
        cases h
        rfl
    case isFalse hc =>
      cases h
      rfl

/-- `stream_index` never decreases across the counting pass's chunk loop. -/
theorem chunkLoop_si_mono (ctx : ScanCtx) :
    ∀ (fuel : Nat) (st : ScanSt) (si : Nat) (p : Option Nat) (stf : ScanSt) (sif : Nat),
      chunkLoop ctx false fuel st si p = .ok (.exit stf sif) → si ≤ sif := by
  intro fuel
  induction fuel with
  | zero =>
    intro st si p stf sif h
    simp only [chunkLoop] at h
    cases h
    exact Nat.le_refl _
  | succ k ih =>
    intro st si p stf sif h
    simp only [chunkLoop, Bool.false_eq_true, if_false] at h
    split at h
    case isTrue hc =>
      split at h
      case isTrue hb => exact Nat.le_trans (Nat.le_add_right _ _) (ih _ _ _ _ _ h)
      case isFalse hb => cases h
    case isFalse hc =>
      cases h
      exact Nat.le_refl _

/-- If the counting pass's chunk loop ends with the well-formedness ghost flag
still true, it was true at entry. -/
theorem chunkLoop_wf_mono (ctx : ScanCtx) :
    ∀ (fuel : Nat) (st : ScanSt) (si : Nat) (p : Option Nat) (stf : ScanSt) (sif : Nat),
      chunkLoop ctx false fuel st si p = .ok (.exit stf sif) → stf.wf = true →
      st.wf = true := by
  intro fuel
  induction fuel with
  | zero =>
    intro st si p stf sif h hw
    simp only [chunkLoop] at h
    cases h
    exact hw
  | succ k ih =>
    intro st si p stf sif h hw
    simp only [chunkLoop, Bool.false_eq_true, if_false] at h
    split at h
    case isTrue hc =>
      split at h
      case isTrue hb =>
        have := ih _ _ _ _ _ h hw
        simp only [Bool.and_eq_true] at this
        exact this.1.1
      case isFalse hb => cases h
    case isFalse hc =>
      cases h
      exact hw

/-- Once the package's common chunk sample count is fixed and recorded in
`num_samples`, a well-formed chunk loop keeps `num_samples` at that value. -/
theorem chunkLoop_lastNs_stable (ctx : ScanCtx) (c : Nat) :
    ∀ (fuel : Nat) (st : ScanSt) (si : Nat) (stf : ScanSt) (sif : Nat),
      chunkLoop ctx false fuel st si (some c) = .ok (.exit stf sif) → stf.wf = true →
      st.lastNs = some c → stf.lastNs = some c := by
  intro fuel
  induction fuel with
  | zero =>
    intro st si stf sif h hw hl
    simp only [chunkLoop] at h
    cases h
    exact hl
  | succ k ih =>
    intro st si stf sif h hw hl
    simp only [chunkLoop, Bool.false_eq_true, if_false] at h
    split at h
    case isTrue hc =>
      split at h
      case isTrue hb =>
        have hstep := chunkLoop_wf_mono ctx _ _ _ _ _ _ h hw
        simp only [Bool.and_eq_true, decide_eq_true_eq, Option.getD_some] at hstep
        have hcs : c = leVal (readN ctx.f (afterRead ctx.f st.pos 2) 2) := hstep.2
        rw [← hcs] at h
        simp only [Option.getD_some] at h
        exact ih _ _ _ _ h hw rfl
      case isFalse hb => cases h
    case isFalse hc =>
      cases h
      exact hl

theorem hdrSame_refl (g : Header) : HdrSame g g := by
  unfold HdrSame
  refine ⟨rfl, rfl, rfl, rfl, rfl, rfl, rfl, rfl, rfl, rfl, rfl, rfl, rfl, rfl, rfl,
    rfl, rfl, rfl⟩

theorem hdrSame_trans {g h k : Header} (h1 : HdrSame g h) (h2 : HdrSame h k) :
    HdrSame g k := by
  unfold HdrSame at h1 h2 ⊢
  obtain ⟨a1, a2, a3, a4, a5, a6, a7, a8, a9, a10, a11, a12, a13, a14, a15, a16, a17, a18⟩ := h1
  obtain ⟨b1, b2, b3, b4, b5, b6, b7, b8, b9, b10, b11, b12, b13, b14, b15, b16, b17, b18⟩ := h2
  exact ⟨b1.trans a1, b2.trans a2, b3.trans a3, b4.trans a4, b5.trans a5, b6.trans a6,
    b7.trans a7, b8.trans a8, b9.trans a9, b10.trans a10, b11.trans a11, b12.trans a12,
    b13.trans a13, b14.trans a14, b15.trans a15, b16.trans a16, b17.trans a17, b18.trans a18⟩

theorem hdrSame_counters (g : Header) (a b : Option Nat) :
    HdrSame g { g with total_samples := a, total_packages := b } := by
  unfold HdrSame
  refine ⟨rfl, rfl, rfl, rfl, rfl, rfl, rfl, rfl, rfl, rfl, rfl, rfl, rfl, rfl, rfl,
    rfl, rfl, rfl⟩

theorem chunkFinish_inv {sid : Nat} {el : Cell} {st1 st2 : ScanSt}
    (h : chunkFinish sid el st1 = .ok st2) :
    ∃ ns m, st1.lastNs = some ns ∧ st1.mat = some m ∧
      st2 = { st1 with
        mat := some ((m.setRectScalar st1.rowIndex (st1.rowIndex + ns) 0 1
          (Cell.intVal sid)).setRectScalar st1.rowIndex (st1.rowIndex + ns) 1 2 el)
        rowIndex := st1.rowIndex + ns } := by
  unfold chunkFinish at h
  split at h
  case h_1 => cases h
  case h_2 ns hns =>
    split at h
    case h_1 => cases h
    case h_2 m hm =>
      cases h
      exact ⟨ns, m, hns, hm, rfl⟩

theorem chunkFinish_hdr {sid : Nat} {el : Cell} {st1 st2 : ScanSt}
    (h : chunkFinish sid el st1 = .ok st2) : st2.hdr = st1.hdr := by
  obtain ⟨ns, m, _, _, rfl⟩ := chunkFinish_inv h
  rfl

theorem chunkCount_inv {nsr : Nat} {st1 : ScanSt} {si : Nat} {cont : Bool} {st2 : ScanSt}
    (h : chunkCount nsr st1 si = .ok (cont, st2)) :
    (∃ ns, st1.lastNs = some ns ∧ si = nsr ∧ cont = true ∧
      st2 = { st1 with hdr := { st1.hdr with
        total_samples := some (st1.hdr.total_samples.getD 0 + ns)
        total_packages := some (st1.hdr.total_packages.getD 0 + 1) } }) ∨
    (¬ si = nsr ∧ cont = false ∧ st2 = { st1 with wf := false }) := by
  unfold chunkCount at h
  split at h
  case isTrue hsi =>
    split at h
    case h_1 => cases h
    case h_2 ns hns =>
      cases h
      exact Or.inl ⟨ns, hns, hsi, rfl, rfl⟩
  case isFalse hsi =>
    cases h
    exact Or.inr ⟨hsi, rfl, rfl⟩

theorem flatRead_hdr {ctx : ScanCtx} {sid : Nat} {el srcT : Cell} {ns nv pD : Nat}
    {st1 st2 : ScanSt} (h : flatRead ctx sid el srcT ns nv pD st1 = .ok st2) :
    st2.hdr = st1.hdr ∧ st2.trace = st1.trace ∧ st2.lastNs = st1.lastNs ∧
    st2.wf = st1.wf := by
  simp only [flatRead] at h
  split at h
  case h_1 => cases h
  case h_2 m hm =>
    split at h
    case isTrue hns1 =>
      split at h
      case h_1 => cases h
      case h_2 mA hmA =>
        split at h
        case h_1 => cases h
        case h_2 mB hmB =>
          split at h
          case h_1 => cases h
          case h_2 mC hmC =>
            split at h
            case h_1 => cases h
            case h_2 mD hmD =>
              cases h
              exact ⟨rfl, rfl, rfl, rfl⟩
    case isFalse hns1 =>
      split at h
      case h_1 => cases h
      case h_2 rect hrect =>
        split at h
        case h_1 => cases h
        case h_2 mD hmD =>
          cases h
          exact ⟨rfl, rfl, rfl, rfl⟩

theorem ifOk_inv {c : Prop} [Decidable c] {α β : Type} {x y : Except α β} {r : β}
    (h : (if c then x else y) = .ok r) : (c ∧ x = .ok r) ∨ (¬ c ∧ y = .ok r) := by
  split at h
  case isTrue hc => exact Or.inl ⟨hc, h⟩
  case isFalse hc => exact Or.inr ⟨hc, h⟩

theorem exceptCase_inv {α β γ : Type} {x : Except α β} {g : β → Except α γ} {r : γ}
    (h : (match x with | .error e => (.error e : Except α γ) | .ok v => g v) = .ok r) :
    ∃ v, x = .ok v ∧ g v = .ok r := by
  cases x with
  | error e => cases h
  | ok v => exact ⟨v, rfl, h⟩

theorem okOk_inv {α β : Type} {v r : β} (h : (.ok v : Except α β) = .ok r) : v = r := by
  cases h
  rfl

/-- The materializing pass never touches the header dict. -/
theorem pkgLoop_hdr_read (ctx : ScanCtx) :
    ∀ (fuel : Nat) (st stf : ScanSt),
      pkgLoop ctx true fuel st = .ok stf → stf.hdr = st.hdr := by
  intro fuel
  induction fuel with
  | zero =>
    intro st stf h
    simp only [pkgLoop] at h
    cases h
    rfl
  | succ k ih =>
    intro st stf h
    simp only [pkgLoop, eq_self_iff_true, true_and, if_true] at h
    split at h
    case isTrue hg =>
      split at h
      case isTrue hse => cases h
      case isFalse hse =>
        split at h
        case isTrue hck =>
          split at h
          case h_1 => cases h
          case h_2 st1 hout =>
            cases h
            exact (chunkLoop_frame ctx true _ _ _ _ _ hout).1
          case h_3 st1 si hout =>
            split at h
            case h_1 => cases h
            case h_2 st2 hfin =>
              have hfr := (chunkLoop_frame ctx true _ _ _ _ _ hout).1
              simp only [ChunkOut.toSt] at hfr
              exact (ih _ _ h).trans ((chunkFinish_hdr hfin).trans hfr)
        case isFalse hck =>
          rcases ifOk_inv h with ⟨hle, h2⟩ | ⟨hgt, h2⟩
          · split at h2
            case h_1 => cases h2
            case h_2 st2 hfr =>
              exact (ih _ _ h2).trans (flatRead_hdr hfr).1
          · rw [← okOk_inv h2]
    case isFalse hg =>
      cases h
      rfl

/-- The counting pass can change only the two counters in the header, and never
creates a matrix. -/
theorem pkgLoop_count_frame (ctx : ScanCtx) :
    ∀ (fuel : Nat) (st stf : ScanSt),
      pkgLoop ctx false fuel st = .ok stf →
      HdrSame st.hdr stf.hdr ∧ stf.mat = st.mat := by
  intro fuel
  induction fuel with
  | zero =>
    intro st stf h
    simp only [pkgLoop] at h
    cases h
    exact ⟨hdrSame_refl _, rfl⟩
  | succ k ih =>
    intro st stf h
    simp only [pkgLoop, Bool.false_eq_true, false_and, if_false] at h
    split at h
    case isTrue hg =>
      split at h
      case isTrue hck =>
        split at h
        case h_1 => cases h
        case h_2 st1 hout =>
          cases h
          have h1 := (chunkLoop_frame ctx false _ _ _ _ _ hout).1
          have h2 := chunkLoop_mat_count ctx _ _ _ _ _ hout
          simp only [ChunkOut.toSt] at h1 h2
          rw [h1, h2]
          exact ⟨hdrSame_refl _, rfl⟩
        case h_3 st1 si hout =>
          have h1 := (chunkLoop_frame ctx false _ _ _ _ _ hout).1
          have h2 := chunkLoop_mat_count ctx _ _ _ _ _ hout
          simp only [ChunkOut.toSt] at h1 h2
          split at h
          case h_1 => cases h
          case h_2 cont st2 hcc =>
            rcases chunkCount_inv hcc with ⟨ns, hns, hsi, hcont, rfl⟩ | ⟨hsi, hcont, rfl⟩
            · subst hcont
              rw [if_pos rfl] at h
              obtain ⟨ha, hb⟩ := ih _ _ h
              refine ⟨?_, hb.trans h2⟩
              refine hdrSame_trans ?_ ha
              rw [h1]
              exact hdrSame_counters _ _ _
            · subst hcont
              rw [if_neg (by simp)] at h
              cases h
              rw [h1, h2]
              exact ⟨hdrSame_refl _, rfl⟩
      case isFalse hck =>
        rcases ifOk_inv h with ⟨hle, hrec⟩ | ⟨hgt, h2⟩
        · obtain ⟨ha, hb⟩ := ih _ _ hrec
          exact ⟨hdrSame_trans (hdrSame_counters _ _ _) ha, hb⟩
        · rw [← okOk_inv h2]
          exact ⟨hdrSame_refl _, rfl⟩
    case isFalse hg =>
      cases h
      exact ⟨hdrSame_refl _, rfl⟩

theorem total_step {g : Header} {t : Nat} (ht : g.total_samples = some t) (ns : Nat) :
    ({ g with total_samples := some (g.total_samples.getD 0 + ns)
              total_packages := some (g.total_packages.getD 0 + 1) } : Header).total_samples
      = some (t + ns) := by
  simp [ht]

/-- The counting pass only ever increases `total_samples`. -/
theorem pkgLoop_total_mono (ctx : ScanCtx) :
    ∀ (fuel : Nat) (st stf : ScanSt) (t : Nat),
      pkgLoop ctx false fuel st = .ok stf → st.hdr.total_samples = some t →
      ∃ u, stf.hdr.total_samples = some u ∧ t ≤ u := by
  intro fuel
  induction fuel with
  | zero =>
    intro st stf t h ht
    simp only [pkgLoop] at h
    cases h
    exact ⟨t, ht, Nat.le_refl t⟩
  | succ k ih =>
    intro st stf t h ht
    simp only [pkgLoop, Bool.false_eq_true, false_and, if_false] at h
    split at h
    case isTrue hg =>
      split at h
      case isTrue hck =>
        split at h
        case h_1 => cases h
        case h_2 st1 hout =>
          cases h
          have h1 := (chunkLoop_frame ctx false _ _ _ _ _ hout).1
          simp only [ChunkOut.toSt] at h1
          exact ⟨t, by rw [h1]; exact ht, Nat.le_refl t⟩
        case h_3 st1 si hout =>
          have h1 := (chunkLoop_frame ctx false _ _ _ _ _ hout).1
          simp only [ChunkOut.toSt] at h1
          split at h
          case h_1 => cases h
          case h_2 cont st2 hcc =>
            rcases chunkCount_inv hcc with ⟨ns, hns, hsi, hcont, rfl⟩ | ⟨hsi, hcont, rfl⟩
            · subst hcont
              rw [if_pos rfl] at h
              have hst1 : st1.hdr.total_samples = some t := by rw [h1]; exact ht
              obtain ⟨u, hu, hle⟩ := ih _ _ _ h (total_step hst1 _)
              exact ⟨u, hu, Nat.le_trans (Nat.le_add_right _ _) hle⟩
            · subst hcont
              rw [if_neg (by simp)] at h
              cases h
              exact ⟨t, by rw [h1]; exact ht, Nat.le_refl t⟩
      case isFalse hck =>
        rcases ifOk_inv h with ⟨hle2, hrec⟩ | ⟨hgt, h2⟩
        · obtain ⟨u, hu, hle⟩ := ih _ _ _ hrec (total_step ht _)
          exact ⟨u, hu, Nat.le_trans (Nat.le_add_right _ _) hle⟩
        · rw [← okOk_inv h2]
          exact ⟨t, ht, Nat.le_refl t⟩
    case isFalse hg =>
      cases h
      exact ⟨t, ht, Nat.le_refl t⟩

/-- A chunk-loop discard (`.stop`) always clears the ghost flag. -/
theorem chunkLoop_stop_wf (ctx : ScanCtx) :
    ∀ (fuel : Nat) (st : ScanSt) (si : Nat) (p : Option Nat) (s : ScanSt),
      chunkLoop ctx false fuel st si p = .ok (.stop s) → s.wf = false := by
  intro fuel
  induction fuel with
  | zero =>
    intro st si p s h
    simp only [chunkLoop] at h
    cases h
  | succ k ih =>
    intro st si p s h
    simp only [chunkLoop, Bool.false_eq_true, if_false] at h
    split at h
    case isTrue hc =>
      split at h
      case isTrue hb => exact ih _ _ _ _ h
      case isFalse hb =>
        injection h with h
        injection h with h
        rw [← h]
    case isFalse hc => cases h

/-- If the counting pass ends with the ghost flag still true, it was true at
entry (no package was ever discarded). -/
theorem pkgLoop_wf_mono (ctx : ScanCtx) :
    ∀ (fuel : Nat) (st stf : ScanSt),
      pkgLoop ctx false fuel st = .ok stf → stf.wf = true → st.wf = true := by
  intro fuel
  induction fuel with
  | zero =>
    intro st stf h hw
    simp only [pkgLoop] at h
    cases h
    exact hw
  | succ k ih =>
    intro st stf h hw
    simp only [pkgLoop, Bool.false_eq_true, false_and, if_false] at h
    split at h
    case isTrue hg =>
      split at h
      case isTrue hck =>
        split at h
        case h_1 => cases h
        case h_2 st1 hout =>
          injection h with h
          rw [← h] at hw
          rw [chunkLoop_stop_wf ctx _ _ _ _ _ hout] at hw
          cases hw
        case h_3 st1 si hout =>
          split at h
          case h_1 => cases h
          case h_2 cont st2 hcc =>
            rcases chunkCount_inv hcc with ⟨ns, hns, hsi, hcont, rfl⟩ | ⟨hsi, hcont, rfl⟩
            · subst hcont
              rw [if_pos rfl] at h
              have hst1wf0 := ih _ _ h hw
              have hst1wf : st1.wf = true := hst1wf0
              have hres := chunkLoop_wf_mono ctx _ _ _ _ _ _ hout hst1wf
              exact hres
            · subst hcont
              rw [if_neg (by simp)] at h
              injection h with h
              rw [← h] at hw
              cases hw
      case isFalse hck =>
        rcases ifOk_inv h with ⟨hle, hrec⟩ | ⟨hgt, h2⟩
        · have htmp := ih _ _ hrec hw
          exact htmp
        · rw [← okOk_inv h2] at hw
          cases hw
    case isFalse hg =>
      cases h
      exact hw

/-- The flat-layout write block always succeeds when the package's rows fit in
the matrix, and preserves the matrix shape. -/
theorem flatRead_ok {ctx : ScanCtx} {sid : Nat} {el srcT : Cell} {ns nv pD : Nat}
    {st2 : ScanSt} {m : Mat} {R : Nat}
    (hm : st2.mat = some m) (hmr : m.rows = R) (hmc : m.cols = ctx.dnhc + ctx.numStreams)
    (hrow : st2.rowIndex + ns ≤ R)
    (hdn : 2 ≤ ctx.dnhc)
    (hinc : ctx.includesTime = true → 3 ≤ ctx.dnhc)
    (hnspos : 1 ≤ ctx.numStreams)
    (hnv : nv = ctx.numStreams * ns ∨ (ns = 1 ∧ nv = ctx.numStreams))
    (hbound : pD + nv * 8 ≤ ctx.f.length) :
    ∃ m2, flatRead ctx sid el srcT ns nv pD st2 =
        .ok { st2 with pos := pD + nv * 8, mat := some m2, rowIndex := st2.rowIndex + ns }
      ∧ m2.rows = R ∧ m2.cols = ctx.dnhc + ctx.numStreams := by
  have hnveq : nv = ctx.numStreams * ns := by
    rcases hnv with h | ⟨h1, h2⟩
    · exact h
    · rw [h1, h2, Nat.mul_one]
  have hflen : (fromfileDoubles ctx.f pD nv).1.length = nv :=
    fromfileDoubles_length ctx.f pD nv hbound
  have hfpos : (fromfileDoubles ctx.f pD nv).2 = pD + nv * 8 :=
    fromfileDoubles_pos ctx.f pD nv hbound
  by_cases hns1 : ns = 1
  · -- single-sample package: plain indexed writes then a 1-D row segment
    subst hns1
    obtain ⟨mA, hmA, hmAp⟩ := Mat.setAt_ok m st2.rowIndex 0 (Cell.intVal sid)
      (by omega) (by omega)
    obtain ⟨hmAr, hmAc, _⟩ := hmAp
    obtain ⟨mB, hmB, hmBp⟩ := Mat.setAt_ok mA st2.rowIndex 1 el
      (by omega) (by omega)
    obtain ⟨hmBr, hmBc, _⟩ := hmBp
    have hmid : ∃ mC, (if ctx.includesTime = true then mB.setAt st2.rowIndex 2 srcT
        else .ok mB) = .ok mC ∧ mC.rows = m.rows ∧ mC.cols = m.cols := by
      by_cases hit : ctx.includesTime = true
      · rw [if_pos hit]
        obtain ⟨mC, hmC, hmCp⟩ := Mat.setAt_ok mB st2.rowIndex 2 srcT
          (by omega) (by have := hinc hit; omega)
        exact ⟨mC, hmC, hmCp.1.trans hmBr |>.trans hmAr, hmCp.2.1.trans hmBc |>.trans hmAc⟩
      · rw [if_neg hit]
        exact ⟨mB, rfl, hmBr.trans hmAr, hmBc.trans hmAc⟩
    obtain ⟨mC, hmC, hmCr, hmCc⟩ := hmid
    obtain ⟨mD, hmD, hmDp⟩ := Mat.setRowSeg_ok mC st2.rowIndex ctx.dnhc
      (ctx.dnhc + ctx.numStreams) (fromfileDoubles ctx.f pD nv).1
      (by omega)
      (Or.inl (by
        rw [hflen, hmCc, hmc, min_eq_left (Nat.le_refl _),
          min_eq_left (Nat.le_add_right _ _)]
        omega))
    refine ⟨mD, ?_, hmDp.1.trans (hmCr.trans hmr), hmDp.2.1.trans (hmCc.trans hmc)⟩
    simp only [flatRead]
    rw [hm]
    simp only [eq_self_iff_true, if_true]
    rw [hmA]
    simp only []
    rw [hmB]
    simp only []
    rw [hmC]
    simp only []
    rw [hmD]
    simp only []
    rw [hfpos]
  · -- multi-sample (or empty) package: broadcast scalars then a reshaped block
    have hth : min (st2.rowIndex + ns) m.rows - min st2.rowIndex m.rows = ns := by
      rw [hmr, min_eq_left (by omega), min_eq_left (by omega)]
      omega
    have htw : min (ctx.dnhc + ctx.numStreams) m.cols - min ctx.dnhc m.cols
        = ctx.numStreams := by
      rw [hmc, min_eq_left (Nat.le_refl _), min_eq_left (Nat.le_add_right _ _)]
      omega
    have hrs : npReshapeCols (fromfileDoubles ctx.f pD nv).1 ctx.numStreams =
        .ok (splitRowsAux ctx.numStreams
          ((fromfileDoubles ctx.f pD nv).1.length / ctx.numStreams)
          (fromfileDoubles ctx.f pD nv).1) := by
      unfold npReshapeCols
      rw [if_neg (by omega), if_neg (by
        rw [hflen, hnveq]
        simp [Nat.mul_mod_right])]
    have hsh : (fromfileDoubles ctx.f pD nv).1.length / ctx.numStreams = ns := by
      rw [hflen, hnveq]
      exact Nat.mul_div_cancel_left ns (by omega)
    set mA := m.setRectScalar st2.rowIndex (st2.rowIndex + ns) 0 1 (Cell.intVal sid)
      with hmAdef
    set mB := mA.setRectScalar st2.rowIndex (st2.rowIndex + ns) 1 2 el with hmBdef
    have hmApres := writePres_setRectScalar m st2.rowIndex (st2.rowIndex + ns) 0 1
      (Cell.intVal sid)
    have hmBpres := writePres_setRectScalar mA st2.rowIndex (st2.rowIndex + ns) 1 2 el
    have hmCpres : ((if ctx.includesTime = true then
        mB.setRectScalar st2.rowIndex (st2.rowIndex + ns) 2 3 srcT else mB)).rows = m.rows ∧
        ((if ctx.includesTime = true then
        mB.setRectScalar st2.rowIndex (st2.rowIndex + ns) 2 3 srcT else mB)).cols = m.cols := by
      by_cases hit : ctx.includesTime = true
      · rw [if_pos hit]
        have := writePres_setRectScalar mB st2.rowIndex (st2.rowIndex + ns) 2 3 srcT
        exact ⟨this.1.trans (hmBpres.1.trans hmApres.1), this.2.1.trans
          (hmBpres.2.1.trans hmApres.2.1)⟩
      · rw [if_neg hit]
        exact ⟨hmBpres.1.trans hmApres.1, hmBpres.2.1.trans hmApres.2.1⟩
    obtain ⟨mD, hmD, hmDp⟩ := Mat.setRect_ok
      (if ctx.includesTime = true then
        mB.setRectScalar st2.rowIndex (st2.rowIndex + ns) 2 3 srcT else mB)
      st2.rowIndex (st2.rowIndex + ns) ctx.dnhc (ctx.dnhc + ctx.numStreams)
      (splitRowsAux ctx.numStreams
        ((fromfileDoubles ctx.f pD nv).1.length / ctx.numStreams)
        (fromfileDoubles ctx.f pD nv).1)
      ((fromfileDoubles ctx.f pD nv).1.length / ctx.numStreams) ctx.numStreams
      ⟨Or.inl (by rw [hsh, hmCpres.1, hth]), Or.inl (by rw [hmCpres.2, htw])⟩
    refine ⟨mD, ?_, hmDp.1.trans (hmCpres.1.trans hmr), hmDp.2.1.trans (hmCpres.2.trans hmc)⟩
    simp only [flatRead]
    rw [hm]
    simp only [if_neg hns1]
    rw [hrs]
    simp only []
    rw [hmD]
    simp only []
    rw [hfpos]

/-! ## Lockstep simulation: the two passes walk the same byte offsets -/

/-- Chunk-loop lockstep: whenever the counting pass's chunk loop runs to a
normal exit with the well-formedness ghost flag still true, the materializing
pass's chunk loop from the same position performs the identical walk — same
final position, same trace, same `num_samples`, same stream index — and all of
its matrix writes succeed, preserving the matrix shape. -/
theorem chunkLoop_lockstep (ctx : ScanCtx) (hlen : ctx.fileSize = ctx.f.length) :
    ∀ (fuel : Nat) (st1 : ScanSt) (si : Nat) (pkgNs : Option Nat) (st1f : ScanSt) (sif : Nat),
      chunkLoop ctx false fuel st1 si pkgNs = .ok (.exit st1f sif) →
      st1f.wf = true →
      sif ≤ ctx.numStreams →
      ∀ (hdr2 : Header) (ri : Nat) (m : Mat) (R : Nat),
        m.rows = R → m.cols = ctx.dnhc + ctx.numStreams →
        ri ≤ R →
        (∀ c, pkgNs = some c → ri + c ≤ R) →
        (∀ c, pkgNs = none → st1f.lastNs = some c → ri + c ≤ R) →
        ∃ m2, chunkLoop ctx true fuel
            { pos := st1.pos, hdr := hdr2, rowIndex := ri, mat := some m,
              lastNs := st1.lastNs, trace := st1.trace, wf := st1.wf } si pkgNs
          = .ok (.exit
              { pos := st1f.pos, hdr := hdr2, rowIndex := ri, mat := some m2,
                lastNs := st1f.lastNs, trace := st1f.trace, wf := st1f.wf } sif)
          ∧ m2.rows = R ∧ m2.cols = ctx.dnhc + ctx.numStreams := by
  intro fuel
  induction fuel with
  | zero =>
    intro st1 si pkgNs st1f sif h1 hwf hsif hdr2 ri m R hmr hmc hri hbs hbn
    simp only [chunkLoop] at h1
    injection h1 with h1
    injection h1 with ha hb
    subst ha
    subst hb
    exact ⟨m, rfl, hmr, hmc⟩
  | succ k ih =>
    intro st1 si pkgNs st1f sif h1 hwf hsif hdr2 ri m R hmr hmc hri hbs hbn
    simp only [chunkLoop, Bool.false_eq_true, if_false] at h1
    split at h1
    case isFalse hc =>
      injection h1 with h1
      injection h1 with ha hb
      subst ha
      subst hb
      refine ⟨m, ?_, hmr, hmc⟩
      simp only [chunkLoop]
      rw [if_neg hc]
    case isTrue hc =>
      split at h1
      case isFalse hb => cases h1
      case isTrue hb =>
        -- step facts from the counting pass
        have hwfstep := chunkLoop_wf_mono ctx _ _ _ _ _ _ h1 hwf
        simp only [Bool.and_eq_true, decide_eq_true_eq] at hwfstep
        obtain ⟨⟨hw1, hcn0⟩, hcsu⟩ := hwfstep
        have hsimono := chunkLoop_si_mono ctx _ _ _ _ _ _ h1
        -- abbreviations matching the unfolded body
        set cn := leVal (readN ctx.f st1.pos 2) with hcndef
        set cs := leVal (readN ctx.f (afterRead ctx.f st1.pos 2) 2) with hcsdef
        set pB := afterRead ctx.f (afterRead ctx.f st1.pos 2) 2 with hpBdef
        have hcnpos : 0 < cn := Nat.pos_of_ne_zero hcn0
        -- the value bound, in the form used by fromfileDoubles
        have hbv : pB + (cn * cs) * 8 ≤ ctx.f.length := by
          rw [← hlen]
          exact hb
        have hlastf : st1f.lastNs = some cs := by
          have hpk : (some (pkgNs.getD cs)) = some cs := by rw [hcsu]
          rw [hpk] at h1
          exact chunkLoop_lastNs_stable ctx cs _ _ _ _ _ h1 hwf rfl
        -- the row bound for this chunk
        have hrow : ri + cs ≤ R := by
          cases hpk : pkgNs with
          | none =>
            exact hbn cs hpk hlastf
          | some c =>
            have : c = cs := by
              rw [hpk] at hcsu
              simpa using hcsu
            rw [← this]
            exact hbs c hpk
        -- the column bound for this chunk
        have hcol : si + cn ≤ ctx.numStreams :=
          Nat.le_trans hsimono hsif
        -- pass-2 reads the same values and reshapes successfully
        have hflen : (fromfileDoubles ctx.f pB (cn * cs)).1.length = cn * cs :=
          fromfileDoubles_length ctx.f pB (cn * cs) hbv
        have hfpos : (fromfileDoubles ctx.f pB (cn * cs)).2 = pB + (cn * cs) * 8 :=
          fromfileDoubles_pos ctx.f pB (cn * cs) hbv
        have hrs : npReshapeCols (fromfileDoubles ctx.f pB (cn * cs)).1 cn =
            .ok (splitRowsAux cn ((fromfileDoubles ctx.f pB (cn * cs)).1.length / cn)
              (fromfileDoubles ctx.f pB (cn * cs)).1) := by
          unfold npReshapeCols
          rw [if_neg hcn0, if_neg (by rw [hflen]; simp [Nat.mul_mod_right])]
        have hsh : (fromfileDoubles ctx.f pB (cn * cs)).1.length / cn = cs := by
          rw [hflen]
          exact Nat.mul_div_cancel_left cs hcnpos
        -- the setRect on the materializing pass succeeds and keeps the shape
        have hth : min (ri + cs) m.rows - min ri m.rows = cs := by
          rw [hmr, min_eq_left (by omega), min_eq_left (by omega)]
          omega
        have htw : min (ctx.dnhc + si + cn) m.cols - min (ctx.dnhc + si) m.cols = cn := by
          rw [hmc, min_eq_left (by omega), min_eq_left (by omega)]
          omega
        obtain ⟨m1, hm1, hm1p⟩ := Mat.setRect_ok m ri (ri + cs) (ctx.dnhc + si)
          (ctx.dnhc + si + cn)
          (splitRowsAux cn ((fromfileDoubles ctx.f pB (cn * cs)).1.length / cn)
            (fromfileDoubles ctx.f pB (cn * cs)).1)
          ((fromfileDoubles ctx.f pB (cn * cs)).1.length / cn) cn
          ⟨Or.inl (by rw [hsh, hth]), Or.inl (by rw [htw])⟩
        obtain ⟨hm1r, hm1c, _⟩ := hm1p
        -- apply the induction hypothesis to the tail
        have hpk1 : (some (pkgNs.getD cs)) = some cs := by rw [hcsu]
        rw [hpk1] at h1
        obtain ⟨m2, htail, hm2r, hm2c⟩ := ih _ _ _ _ _ h1 hwf hsif hdr2 ri m1
          R (by rw [hm1r, hmr]) (by rw [hm1c, hmc]) hri
          (fun c hc => by
            have hceq : c = cs := by
              have := hc
              simp only [Option.some.injEq] at this
              exact this.symm
            rw [hceq]
            exact hrow)
          (fun c hc => by cases hc)
        refine ⟨m2, ?_, hm2r, hm2c⟩
        -- assemble the materializing pass's step
        simp only [chunkLoop, eq_self_iff_true, if_true]
        rw [if_pos hc, if_pos hb, hrs]
        simp only []
        rw [hm1]
        simp only []
        rw [hpk1, hfpos]
        exact htail

/-- Package-loop lockstep: when the counting pass runs to completion with no
tolerated-partial discard and uniform chunk sample counts (ghost flag true),
the materializing pass performs the identical byte walk (same final position
and same trace), never raises, never touches the header, and its final row
index equals the counting pass's final `total_samples`. -/
theorem pkgLoop_lockstep (ctx : ScanCtx)
    (hlen : ctx.fileSize = ctx.f.length)
    (hns : 1 ≤ ctx.numStreams)
    (hphs : ctx.phs =
      if ctx.fileType = 0 then (if ctx.includesTime = true then 22 else 14) else 12)
    (hdnhc : ctx.dnhc =
      if ctx.fileType = 0 then (if ctx.includesTime = true then 3 else 2) else 2)
    (hinc : ctx.includesTime = true → ctx.fileType = 0) :
    ∀ (fuel : Nat) (st1 st1f : ScanSt) (t0 T : Nat),
      pkgLoop ctx false fuel st1 = .ok st1f →
      st1f.wf = true →
      st1.hdr.total_samples = some t0 →
      st1f.hdr.total_samples = some T →
      ∀ (hdr2 : Header) (m : Mat),
        m.rows = T → m.cols = ctx.dnhc + ctx.numStreams →
        ∃ m2, pkgLoop ctx true fuel
            { pos := st1.pos, hdr := hdr2, rowIndex := t0, mat := some m,
              lastNs := st1.lastNs, trace := st1.trace, wf := st1.wf }
          = .ok { pos := st1f.pos, hdr := hdr2, rowIndex := T, mat := some m2,
                  lastNs := st1f.lastNs, trace := st1f.trace, wf := st1f.wf }
          ∧ m2.rows = T ∧ m2.cols = ctx.dnhc + ctx.numStreams := by
  have hdn2 : 2 ≤ ctx.dnhc := by
    rw [hdnhc]
    split
    · split
      · omega
      · omega
    · omega
  have hdn3 : ctx.includesTime = true → 3 ≤ ctx.dnhc := by
    intro hit
    rw [hdnhc, if_pos (hinc hit), if_pos hit]
  have hphs12 : 12 ≤ ctx.phs := by
    rw [hphs]
    split
    · split
      · omega
      · omega
    · omega
  have hphs22 : ctx.includesTime = true → ctx.phs = 22 := by
    intro hit
    rw [hphs, if_pos (hinc hit), if_pos hit]
  intro fuel
  induction fuel with
  | zero =>
    intro st1 st1f t0 T h1 hwf ht0 hT hdr2 m hmr hmc
    simp only [pkgLoop] at h1
    injection h1 with h1
    subst h1
    rw [ht0] at hT
    injection hT with hTT
    subst hTT
    exact ⟨m, rfl, hmr, hmc⟩
  | succ k ih =>
    intro st1 st1f t0 T h1 hwf ht0 hT hdr2 m hmr hmc
    simp only [pkgLoop, Bool.false_eq_true, false_and, if_false] at h1
    split at h1
    case isFalse hg =>
      injection h1 with h1
      subst h1
      rw [ht0] at hT
      injection hT with hTT
      subst hTT
      refine ⟨m, ?_, hmr, hmc⟩
      simp only [pkgLoop]
      rw [if_neg hg]
    case isTrue hg =>
      have hg2 : st1.pos + ctx.phs ≤ ctx.f.length := by rw [← hlen]; exact hg
      have hposA : afterRead ctx.f st1.pos 4 = st1.pos + 4 :=
        afterRead_eq _ _ _ (by omega)
      have hpB : afterRead ctx.f (afterRead ctx.f st1.pos 4) 8 = st1.pos + 12 := by
        rw [hposA]
        exact afterRead_eq _ _ _ (by omega)
      have heB : (readN ctx.f (afterRead ctx.f st1.pos 4) 8).length = 8 := by
        rw [hposA]
        exact readN_length_of_le _ _ _ (by omega)
      have hpC : ctx.includesTime = true →
          afterRead ctx.f (afterRead ctx.f (afterRead ctx.f st1.pos 4) 8) 8
            = st1.pos + 20 := by
        intro hit
        rw [hpB]
        exact afterRead_eq _ _ _ (by have := hphs22 hit; omega)
      have htBlen : ctx.includesTime = true →
          (readN ctx.f (afterRead ctx.f (afterRead ctx.f st1.pos 4) 8) 8).length = 8 := by
        intro hit
        rw [hpB]
        exact readN_length_of_le _ _ _ (by have := hphs22 hit; omega)
      have hnostruct : ¬((readN ctx.f (afterRead ctx.f st1.pos 4) 8).length ≠ 8 ∨
          (ctx.includesTime = true ∧
            (readN ctx.f (afterRead ctx.f (afterRead ctx.f st1.pos 4) 8) 8).length ≠ 8)) := by
        intro hor
        rcases hor with hbad | ⟨hit, hbad⟩
        · exact hbad heB
        · exact hbad (htBlen hit)
      have hEnd : (if ctx.includesTime = true then
            afterRead ctx.f (afterRead ctx.f (afterRead ctx.f st1.pos 4) 8) 8
          else afterRead ctx.f (afterRead ctx.f st1.pos 4) 8)
          = st1.pos + (if ctx.includesTime = true then 20 else 12) := by
        by_cases hit : ctx.includesTime = true
        · rw [if_pos hit, if_pos hit, hpC hit]
        · rw [if_neg hit, if_neg hit, hpB]
      split at h1
      case isTrue hck =>
        split at h1
        case h_1 => cases h1
        case h_2 st1x hout =>
          injection h1 with h1
          subst h1
          rw [chunkLoop_stop_wf ctx _ _ _ _ _ hout] at hwf
          cases hwf
        case h_3 st1x si hout =>
          split at h1
          case h_1 => cases h1
          case h_2 cont st2x hcc =>
            rcases chunkCount_inv hcc with ⟨ns, hlastns, hsi, hcont, rfl⟩ | ⟨hsi, hcont, rfl⟩
            · subst hcont
              rw [if_pos rfl] at h1
              have hx_hdr : st1x.hdr = st1.hdr := by
                have hfr0 := (chunkLoop_frame ctx false _ _ _ _ _ hout).1
                simpa [ChunkOut.toSt] using hfr0
              have hxt : st1x.hdr.total_samples = some t0 := by
                rw [hx_hdr]
                exact ht0
              have hrecT := total_step hxt ns
              obtain ⟨u, hu, hle⟩ := pkgLoop_total_mono ctx k _ _ _ h1 hrecT
              rw [hT] at hu
              injection hu with huT
              subst huT
              have hxwf0 := pkgLoop_wf_mono ctx k _ _ h1 hwf
              have hxwf : st1x.wf = true := hxwf0
              obtain ⟨m1, hlock, hm1r, hm1c⟩ := chunkLoop_lockstep ctx hlen k _ 0 none
                st1x si hout hxwf (by omega) hdr2 t0 m T hmr hmc (by omega)
                (fun c hc => by cases hc)
                (fun c _ hc => by
                  rw [hlastns] at hc
                  injection hc with hce
                  omega)
              simp only [] at hlock
              have hfin : chunkFinish (leVal (readN ctx.f st1.pos 4))
                  (Cell.bits (leVal (readN ctx.f (afterRead ctx.f st1.pos 4) 8)))
                  { pos := st1x.pos, hdr := hdr2, rowIndex := t0, mat := some m1,
                    lastNs := st1x.lastNs, trace := st1x.trace, wf := st1x.wf }
                  = .ok { pos := st1x.pos, hdr := hdr2, rowIndex := t0 + ns,
                          mat := some (((m1.setRectScalar t0 (t0 + ns) 0 1
                            (Cell.intVal (leVal (readN ctx.f st1.pos 4)))).setRectScalar
                              t0 (t0 + ns) 1 2
                              (Cell.bits (leVal (readN ctx.f (afterRead ctx.f st1.pos 4) 8))))),
                          lastNs := st1x.lastNs, trace := st1x.trace, wf := st1x.wf } := by
                simp only [chunkFinish]
                rw [hlastns]
              have hM2p1 := writePres_setRectScalar m1 t0 (t0 + ns) 0 1
                (Cell.intVal (leVal (readN ctx.f st1.pos 4)))
              have hM2p2 := writePres_setRectScalar
                (m1.setRectScalar t0 (t0 + ns) 0 1
                  (Cell.intVal (leVal (readN ctx.f st1.pos 4)))) t0 (t0 + ns) 1 2
                (Cell.bits (leVal (readN ctx.f (afterRead ctx.f st1.pos 4) 8)))
              obtain ⟨m2, htail, hm2r, hm2c⟩ := ih _ _ _ _ h1 hwf hrecT hT hdr2
                ((m1.setRectScalar t0 (t0 + ns) 0 1
                  (Cell.intVal (leVal (readN ctx.f st1.pos 4)))).setRectScalar
                    t0 (t0 + ns) 1 2
                    (Cell.bits (leVal (readN ctx.f (afterRead ctx.f st1.pos 4) 8))))
                (hM2p2.1.trans (hM2p1.1.trans hm1r)) (hM2p2.2.1.trans (hM2p1.2.1.trans hm1c))
              simp only [] at htail
              refine ⟨m2, ?_, hm2r, hm2c⟩
              simp only [pkgLoop, eq_self_iff_true, true_and, if_true]
              rw [if_pos hg, if_neg hnostruct, if_pos hck, hEnd, hlock]
              simp only []
              rw [hfin]
              simp only []
              exact htail
            · subst hcont
              rw [if_neg (by simp)] at h1
              injection h1 with h1
              rw [← h1] at hwf
              simp only [] at hwf
              cases hwf
      case isFalse hck =>
        rcases ifOk_inv h1 with ⟨hfit, hrec⟩ | ⟨hnofit, h2⟩
        · obtain ⟨u, hu, hle⟩ := pkgLoop_total_mono ctx k _ _ _ hrec (total_step ht0 _)
          rw [hT] at hu
          injection hu with huT
          subst huT
          have hfitlen : (if ctx.fileType = 0 then
              afterRead ctx.f (st1.pos + if ctx.includesTime = true then 20 else 12) 2
            else st1.pos + if ctx.includesTime = true then 20 else 12) +
              (if ctx.fileType = 0 then
                ctx.numStreams *
                  if ctx.fileType = 0 then
                    leVal (readN ctx.f
                      (st1.pos + if ctx.includesTime = true then 20 else 12) 2)
                  else 1
              else ctx.numStreams) * 8 ≤ ctx.f.length := by
            rw [← hlen]
            exact hfit
          obtain ⟨mD, hfr, hmDr, hmDc⟩ := @flatRead_ok ctx
            (leVal (readN ctx.f st1.pos 4))
            (Cell.bits (leVal (readN ctx.f (afterRead ctx.f st1.pos 4) 8)))
            (Cell.bits (leVal
              (readN ctx.f (afterRead ctx.f (afterRead ctx.f st1.pos 4) 8) 8)))
            (if ctx.fileType = 0 then
              leVal (readN ctx.f (st1.pos + if ctx.includesTime = true then 20 else 12) 2)
            else 1)
            (if ctx.fileType = 0 then
              ctx.numStreams *
                if ctx.fileType = 0 then
                  leVal (readN ctx.f (st1.pos + if ctx.includesTime = true then 20 else 12) 2)
                else 1
            else ctx.numStreams)
            (if ctx.fileType = 0 then
              afterRead ctx.f (st1.pos + if ctx.includesTime = true then 20 else 12) 2
            else st1.pos + if ctx.includesTime = true then 20 else 12)
            { pos := (if ctx.fileType = 0 then
                afterRead ctx.f (st1.pos + if ctx.includesTime = true then 20 else 12) 2
              else st1.pos + if ctx.includesTime = true then 20 else 12),
              hdr := hdr2, rowIndex := t0, mat := some m,
              lastNs := some (if ctx.fileType = 0 then
                leVal (readN ctx.f (st1.pos + if ctx.includesTime = true then 20 else 12) 2)
              else 1),
              trace := st1.trace ++ [st1.pos], wf := st1.wf }
            m T rfl hmr hmc hle hdn2 hdn3 hns
            (by
              by_cases hft0 : ctx.fileType = 0
              · left
                rw [if_pos hft0, if_pos hft0]
              · right
                rw [if_neg hft0, if_neg hft0]
                exact ⟨rfl, rfl⟩)
            hfitlen
          obtain ⟨m2, htail, hm2r, hm2c⟩ := ih _ _ _ _ hrec hwf (total_step ht0 _) hT
            hdr2 mD hmDr hmDc
          simp only [flatCount] at htail
          refine ⟨m2, ?_, hm2r, hm2c⟩
          simp only [pkgLoop, eq_self_iff_true, true_and, if_true]
          rw [if_pos hg, if_neg hnostruct, if_neg hck, hEnd, if_pos hfit, hfr]
          simp only []
          exact htail
        · rw [← okOk_inv h2] at hwf
          simp only [] at hwf
          cases hwf

/-- `_allocate_array` with `check_mem` left `False` always returns a fresh
matrix for a nonnegative row count, whatever memory is available. -/
theorem allocate_array_nat (t c avail : Nat) :
    allocate_array (t : Int) c false avail = .ok (some (freshMat t c)) := by
  unfold allocate_array
  rw [if_neg (by omega), if_neg (by simp)]
  simp

/-- C1 (amended core): for a version-2/3 counting pass that succeeds with a
clean scan (ghost flag `wf = true`: no tolerated-partial discard, no
zero-stream chunk, uniform chunk sample counts per package), the materializing
pass on the same file succeeds, walks the identical byte offsets (same trace
and same final position), preserves the header, and fills exactly
`total_samples` rows of a matrix with `total_samples` rows. -/
theorem c1_two_pass_lockstep (f : List Nat) (hdr : Header) (ft avail : Nat)
    (r1 : ScanResult) (T : Nat)
    (hft : ft = 0 ∨ ft = 1)
    (hlen : hdr.file_size = some f.length)
    (hns : 1 ≤ hdr.num_streams.getD 0)
    (ht0 : hdr.total_samples = some 0)
    (h1 : readPackages f hdr ft false avail = .ok r1)
    (hsucc : r1.success = true)
    (hwf : r1.wf = true)
    (hT : r1.hdr.total_samples = some T) :
    ∃ r2 m2, readPackages f r1.hdr ft true avail = .ok r2 ∧
      r2.success = true ∧ r2.hdr = r1.hdr ∧ r2.trace = r1.trace ∧
      r2.pos = r1.pos ∧ r2.rowIndex = T ∧ r2.mat = some m2 ∧ m2.rows = T := by
  simp only [readPackages, Bool.false_eq_true, if_false] at h1
  rw [if_pos hft] at h1
  split at h1
  case h_1 => cases h1
  case h_2 st hpk =>
    injection h1 with h1
    subst h1
    simp only [] at hwf hT
    obtain ⟨hsame, hmat0⟩ := pkgLoop_count_frame _ _ _ _ hpk
    simp only [] at hsame
    obtain ⟨e1, e2, e3, e4, e5, e6, e7, e8, e9, e10, e11, e12, e13, e14, e15,
      e16, e17, e18⟩ := hsame
    simp only [readPackages, eq_self_iff_true, if_true]
    rw [if_pos hft, e1, e6, e9, e18, e15, hT]
    simp only [Option.getD_some]
    rw [allocate_array_nat]
    simp only []
    obtain ⟨m2, heq, hm2r, hm2c⟩ := pkgLoop_lockstep _
      (by simp [hlen])
      hns
      rfl
      rfl
      (by
        intro hit
        simp only [Bool.and_eq_true, decide_eq_true_eq] at hit
        exact hit.1)
      _ _ _ 0 T hpk hwf ht0 hT st.hdr
      (freshMat T (hdr.num_streams.getD 0 +
        if ft = 0 then
          (if (decide (ft = 0) && hdr.includes_source_input_time.getD false) = true
            then 3 else 2)
        else 2))
      rfl
      (Nat.add_comm _ _)
    simp only [] at heq
    rw [heq]
    simp only []
    exact ⟨_, m2, rfl, rfl, rfl, rfl, rfl, rfl, rfl, hm2r⟩

theorem nanOutside_freshMat (r c : Nat) : NanOutside (freshMat r c) := by
  intro i j _
  unfold freshMat Mat.get
  simp only [List.getD_eq_getElem?_getD, List.getElem?_replicate]
  by_cases hi : i < r
  · rw [if_pos hi]
    simp only [Option.getD_some, List.getD_eq_getElem?_getD, List.getElem?_replicate]
    by_cases hj : j < c
    · rw [if_pos hj]
      rfl
    · rw [if_neg hj]
      rfl
  · rw [if_neg hi]
    rfl

/-- C1 (counterexample to the unamended claim): `chunkDiffFile` is a complete
version-2 pipeline file whose single package holds two complete chunks with
differing sample counts (3 then 2) and a stream count matching `num_streams`.
The counting pass succeeds and reports `total_samples = 2`, but the
materializing pass raises (a numpy broadcast error at the second chunk), so the
full load returns `(None, None)`: the two passes do not agree. -/
theorem c1_counterexample :
    (load_data chunkDiffFile false 0).header.bind Header.total_samples = some 2 ∧
    load_data chunkDiffFile true 0 =
      { header := none, data := none, allocs := [], finalPos := none } := by
  decide

/-- C1 (witness): on `wfChunkFile` the counting pass is clean, and the amended
lockstep theorem applies: the materializing pass walks the same offsets and
fills exactly `total_samples = 4` rows. -/
theorem c1_two_pass_lockstep_witness :
    ∃ r2 m2, readPackages wfChunkFile wfChunkScan.hdr 1 true 0 = .ok r2 ∧
      r2.success = true ∧ r2.hdr = wfChunkScan.hdr ∧ r2.trace = wfChunkScan.trace ∧
      r2.pos = wfChunkScan.pos ∧ r2.rowIndex = 4 ∧ r2.mat = some m2 ∧ m2.rows = 4 :=
  c1_two_pass_lockstep wfChunkFile wfChunkHdr 1 0 wfChunkScan 4
    (by decide) (by decide) (by decide) (by decide) (by rfl) (by decide)
    (by decide) (by decide)

/-- C2: a file whose 4-byte version tag is 4 (not in {1,2,3}) does NOT yield
the partial header built so far: line 57 concatenates a `str` with the `int`
version, raising `TypeError` before the `return header, None` on line 59; the
blanket handler (lines 175-177) then returns `(None, None)`. -/
theorem c2_unknown_version :
    load_data [4, 0, 0, 0] true 0 =
      { header := none, data := none, allocs := [], finalPos := none } := by
  decide

/-- C3: on `chunkDiffFile`, whose single package holds complete chunks of 3 and
2 samples with accumulated stream count equal to `num_streams`, the counting
pass adds the LAST chunk's sample count (line 285), reporting
`total_samples = 2` instead of the maximum 3; `total_packages` is 1. -/
theorem c3_last_chunk_total :
    (load_data chunkDiffFile false 0).header.map Header.total_samples
      = some (some 2) ∧
    (load_data chunkDiffFile false 0).header.map Header.total_packages
      = some (some 1) := by
  decide

/-- C4: `truncChunkFile` is truncated mid-chunk.  The counting pass tolerates
the truncation (returns a header, total 0 packages), but the materializing
pass's truncation branch only returns early when `read_data` is false (lines
268-271), so it scans on past the truncated tail and raises; the full load thus
returns `(None, None)` instead of succeeding on both passes. -/
theorem c4_truncated_chunk :
    (load_data truncChunkFile false 0).header.isSome = true ∧
    load_data truncChunkFile true 0 =
      { header := none, data := none, allocs := [], finalPos := none } := by
  decide

/-! ## NaN-outside-writes preservation through the scanners -/

theorem stNan_chunkLoop (ctx : ScanCtx) (rd : Bool) :
    ∀ (fuel : Nat) (st : ScanSt) (si : Nat) (pkgNs : Option Nat) (out : ChunkOut),
      chunkLoop ctx rd fuel st si pkgNs = .ok out → StNan st → StNan out.toSt := by
  intro fuel
  induction fuel with
  | zero =>
    intro st si pkgNs out h hs
    simp only [chunkLoop] at h
    injection h with h
    subst h
    simp only [ChunkOut.toSt]
    exact hs
  | succ k ih =>
    intro st si pkgNs out h hs
    simp only [chunkLoop] at h
    split at h
    case isTrue hin =>
      split at h
      case isTrue hfit =>
        split at h
        case isTrue hrd =>
          split at h
          case h_1 => cases h
          case h_2 rect hrs =>
            split at h
            case h_1 => cases h
            case h_2 m hm =>
              split at h
              case h_1 => cases h
              case h_2 m1 hsr =>
                refine ih _ _ _ _ h ?_
                intro m' hm'
                injection hm' with e
                subst e
                exact (Mat.setRect_writePres _ _ _ _ _ _ _ _ _ hsr).2.2 (hs m hm)
        case isFalse hrd =>
          exact ih _ _ _ _ h hs
      case isFalse hfit =>
        split at h
        case isTrue hrd =>
          exact ih _ _ _ _ h hs
        case isFalse hrd =>
          injection h with h
          subst h
          simp only [ChunkOut.toSt]
          exact hs
    case isFalse hin =>
      injection h with h
      subst h
      simp only [ChunkOut.toSt]
      exact hs

theorem stNan_chunkFinish {sid : Nat} {el : Cell} {st1 st2 : ScanSt}
    (h : chunkFinish sid el st1 = .ok st2) (hs : StNan st1) : StNan st2 := by
  obtain ⟨ns, m, hl, hm, rfl⟩ := chunkFinish_inv h
  intro m' hm'
  simp only [] at hm'
  injection hm' with e
  subst e
  exact (writePres_setRectScalar _ _ _ _ _ _).2.2
    ((writePres_setRectScalar m _ _ _ _ _).2.2 (hs m hm))

theorem stNan_flatRead {ctx : ScanCtx} {sid : Nat} {el srcT : Cell} {ns nv pD : Nat}
    {st1 st2 : ScanSt} (h : flatRead ctx sid el srcT ns nv pD st1 = .ok st2)
    (hs : StNan st1) : StNan st2 := by
  unfold flatRead at h
  split at h
  case h_1 => cases h
  case h_2 m hm =>
    split at h
    case isTrue hns1 =>
      split at h
      case h_1 => cases h
      case h_2 mA hA =>
        split at h
        case h_1 => cases h
        case h_2 mB hB =>
          split at h
          case h_1 => cases h
          case h_2 mC hC =>
            simp only [] at h
            split at h
            case h_1 => cases h
            case h_2 mD hD =>
              injection h with h
              subst h
              intro m' hm'
              simp only [] at hm'
              injection hm' with e
              subst e
              have hnB : NanOutside mB :=
                (Mat.setAt_writePres _ _ _ _ _ hB).2.2
                  ((Mat.setAt_writePres _ _ _ _ _ hA).2.2 (hs m hm))
              have hnC : NanOutside mC := by
                by_cases hit : ctx.includesTime = true
                · rw [if_pos hit] at hC
                  exact (Mat.setAt_writePres _ _ _ _ _ hC).2.2 hnB
                · rw [if_neg hit] at hC
                  injection hC with e2
                  rw [← e2]
                  exact hnB
              exact (Mat.setRowSeg_writePres _ _ _ _ _ _ hD).2.2 hnC
    case isFalse hns1 =>
      have hnB : NanOutside ((m.setRectScalar st1.rowIndex (st1.rowIndex + ns) 0 1
          (Cell.intVal sid)).setRectScalar st1.rowIndex (st1.rowIndex + ns) 1 2 el) :=
        (writePres_setRectScalar _ _ _ _ _ _).2.2
          ((writePres_setRectScalar m _ _ _ _ _).2.2 (hs m hm))
      simp only [] at h
      by_cases hit : ctx.includesTime = true
      · rw [if_pos hit] at h
        split at h
        next => cases h
        next rect hrs =>
          split at h
          next => cases h
          next mD hD =>
            injection h with h
            subst h
            intro m' hm'
            simp only [] at hm'
            injection hm' with e
            subst e
            exact (Mat.setRect_writePres _ _ _ _ _ _ _ _ _ hD).2.2
              ((writePres_setRectScalar _ _ _ _ _ _).2.2 hnB)
      · rw [if_neg hit] at h
        split at h
        next => cases h
        next rect hrs =>
          split at h
          next => cases h
          next mD hD =>
            injection h with h
            subst h
            intro m' hm'
            simp only [] at hm'
            injection hm' with e
            subst e
            exact (Mat.setRect_writePres _ _ _ _ _ _ _ _ _ hD).2.2 hnB

set_option maxHeartbeats 1600000 in
theorem stNan_pkgLoop (ctx : ScanCtx) (rd : Bool) :
    ∀ (fuel : Nat) (st stf : ScanSt),
      pkgLoop ctx rd fuel st = .ok stf → StNan st → StNan stf := by
  intro fuel
  induction fuel with
  | zero =>
    intro st stf h hs
    simp only [pkgLoop] at h
    injection h with h
    subst h
    exact hs
  | succ k ih =>
    intro st stf h hs
    simp only [pkgLoop] at h
    split at h
    case isTrue hg =>
      split at h
      case isTrue hstruct => cases h
      case isFalse hstruct =>
        split at h
        case isTrue hck =>
          split at h
          case h_1 => cases h
          case h_2 st1 hout =>
            injection h with h
            subst h
            have hst := stNan_chunkLoop ctx rd k _ _ _ _ hout hs
            simpa [ChunkOut.toSt] using hst
          case h_3 st1 si hout =>
            have hst1 : StNan st1 := by
              have hst := stNan_chunkLoop ctx rd k _ _ _ _ hout hs
              simpa [ChunkOut.toSt] using hst
            split at h
            case isTrue hrd =>
              split at h
              case h_1 => cases h
              case h_2 st2 hfin =>
                exact ih _ _ h (stNan_chunkFinish hfin hst1)
            case isFalse hrd =>
              split at h
              case h_1 => cases h
              case h_2 cont st2 hcc =>
                have hst2 : StNan st2 := by
                  rcases chunkCount_inv hcc with ⟨nsx, _, _, _, rfl⟩ | ⟨_, _, rfl⟩
                  · exact hst1
                  · exact hst1
                split at h
                · exact ih _ _ h hst2
                · injection h with h
                  subst h
                  exact hst2
        case isFalse hck =>
          rcases ifOk_inv h with ⟨hfit, h2⟩ | ⟨hnofit, h2⟩
          · split at h2
            case isTrue hrd =>
              split at h2
              case h_1 => cases h2
              case h_2 st2 hfl =>
                exact ih _ _ h2 (stNan_flatRead hfl hs)
            case isFalse hrd =>
              exact ih _ _ h2 hs
          · rw [← okOk_inv h2]
            exact hs
    case isFalse hg =>
      injection h with h
      subst h
      exact hs

theorem stNan_v1RowLoop (f : List Nat) (nc : Nat) :
    ∀ (n i pos : Nat) (m : Mat) (md : Mat × Nat),
      v1RowLoop f nc n i pos m = .ok md → NanOutside m → NanOutside md.1 := by
  intro n
  induction n with
  | zero =>
    intro i pos m md h hn
    simp only [v1RowLoop] at h
    injection h with h
    subst h
    exact hn
  | succ k ih =>
    intro i pos m md h hn
    simp only [v1RowLoop] at h
    split at h
    case h_1 => cases h
    case h_2 m1 hA =>
      split at h
      case h_1 => cases h
      case h_2 m2 hB =>
        exact ih _ _ _ _ h
          ((Mat.setRowSeg_writePres _ _ _ _ _ _ hB).2.2
            ((Mat.setAt_writePres _ _ _ _ _ hA).2.2 hn))

theorem stNan_readPackages {f : List Nat} {hdr : Header} {ft : Nat} {rd : Bool}
    {avail : Nat} {r : ScanResult} (h : readPackages f hdr ft rd avail = .ok r) :
    ∀ m, r.mat = some m → NanOutside m := by
  simp only [readPackages] at h
  generalize (if ft = 0 then
      (if (decide (ft = 0) && hdr.includes_source_input_time.getD false) = true
        then 22 else 14)
    else 12 : Nat) = P at h
  generalize (if ft = 0 then
      (if (decide (ft = 0) && hdr.includes_source_input_time.getD false) = true
        then 3 else 2)
    else 2 : Nat) = D at h
  split at h
  case isTrue hft =>
    split at h
    case isTrue hrd =>
      split at h
      case h_1 => cases h
      case h_2 hal =>
        injection h with h
        subst h
        intro m hm
        cases hm
      case h_3 m0 hal =>
        have hm0 : NanOutside m0 := by
          unfold allocate_array at hal
          split at hal
          · cases hal
          · split at hal
            · cases hal
            · injection hal with hal
              injection hal with hal
              rw [← hal]
              exact nanOutside_freshMat _ _
        split at h
        case h_1 => cases h
        case h_2 st hpk =>
          injection h with h
          subst h
          intro m hm
          simp only [] at hm
          refine stNan_pkgLoop _ _ _ _ _ hpk ?_ m hm
          intro m' hm'
          injection hm' with e
          subst e
          exact hm0
    case isFalse hrd =>
      split at h
      case h_1 => cases h
      case h_2 st hpk =>
        injection h with h
        subst h
        intro m hm
        simp only [] at hm
        refine stNan_pkgLoop _ _ _ _ _ hpk ?_ m hm
        intro m' hm'
        cases hm'
  case isFalse hft =>
    injection h with h
    subst h
    intro m hm
    cases hm

theorem stNan_load_data_go {f : List Nat} {rd : Bool} {avail : Nat} {r : LoadResult}
    (h : load_data_go f rd avail = .ok r) : ∀ m, r.data = some m → NanOutside m := by
  simp only [load_data_go] at h
  split at h
  case h_1 => cases h
  case h_2 hdr0 hph =>
    generalize (if fileTypeOf (hdr0.code.getD []) = 0 ∨ fileTypeOf (hdr0.code.getD []) = 1
        then 4 + 8 * ((hdr0.num_columns.getD 0 : Int) - 1)
        else 8 * (hdr0.num_columns.getD 0 : Int)) = RS at h
    split at h
    case isTrue hv1 =>
      split at h
      case isTrue => cases h
      case isFalse hrs =>
        split at h
        case isTrue hrd =>
          split at h
          case h_1 => cases h
          case h_2 hal =>
            injection h with h
            subst h
            intro m hm
            cases hm
          case h_3 m0 hal =>
            have hm0 : NanOutside m0 := by
              unfold allocate_array at hal
              split at hal
              · cases hal
              · split at hal
                · cases hal
                · injection hal with hal
                  injection hal with hal
                  rw [← hal]
                  exact nanOutside_freshMat _ _
            split at h
            case h_1 => cases h
            case h_2 md hv =>
              injection h with h
              subst h
              intro m hm
              simp only [] at hm
              injection hm with e
              subst e
              exact stNan_v1RowLoop _ _ _ _ _ _ _ hv hm0
        case isFalse hrd =>
          injection h with h
          subst h
          intro m hm
          cases hm
    case isFalse hv1 =>
      split at h
      case h_1 => cases h
      case h_2 s ss hspp =>
        split at h
        case h_1 => cases h
        case h_2 r1 hr1 =>
          split at h
          case isTrue hsucc =>
            split at h
            case isTrue hrd =>
              split at h
              case h_1 => cases h
              case h_2 r2 hr2 =>
                split at h
                case isTrue hsucc2 =>
                  injection h with h
                  subst h
                  intro m hm
                  simp only [] at hm
                  exact stNan_readPackages hr2 m hm
                case isFalse hsucc2 =>
                  injection h with h
                  subst h
                  intro m hm
                  cases hm
            case isFalse hrd =>
              injection h with h
              subst h
              intro m hm
              cases hm
          case isFalse hsucc =>
            injection h with h
            subst h
            intro m hm
            cases hm

/-- C10: the materializing matrix is allocated entirely NaN-prefilled, every
cell assignment is logged in the ghost `writes` list, and every write-preserving
operation keeps unwritten cells NaN; hence any cell of the returned data matrix
that is not in `writes` still reads NaN after `load_data` returns. -/
theorem c10_nan_prefill (f : List Nat) (rd : Bool) (avail : Nat) (m : Mat)
    (h : (load_data f rd avail).data = some m) :
    ∀ i j, (i, j) ∉ m.writes → m.get i j = Cell.nan := by
  unfold load_data at h
  split at h
  case h_1 r hgo =>
    exact stNan_load_data_go hgo m h
  case h_2 e hgo =>
    simp only [] at h
    cases h

/-- Each version-1 row decode reads a 4-byte id and `num_columns - 1` doubles,
so `n` rows advance the cursor by exactly `n * (4 + 8 * (num_columns - 1))`
bytes whatever the file kind. -/
theorem v1RowLoop_consume (f : List Nat) (nc w : Nat) (hnc : 1 ≤ nc)
    (hw : w = 4 + 8 * (nc - 1)) :
    ∀ (n i pos : Nat) (m : Mat),
      pos + n * w ≤ f.length →
      i + n ≤ m.rows → nc ≤ m.cols →
      ∃ m2, v1RowLoop f nc n i pos m = .ok (m2, pos + n * w) := by
  intro n
  induction n with
  | zero =>
    intro i pos m hlen hrow hcol
    exact ⟨m, by simp [v1RowLoop]⟩
  | succ k ih =>
    intro i pos m hlen hrow hcol
    have hsm : (k + 1) * w = k * w + w := Nat.succ_mul k w
    have hb : pos + 4 + (nc - 1) * 8 + k * w ≤ f.length := by
      rw [hsm] at hlen
      have hkw : pos + (k * w + w) = pos + k * w + w := by omega
      rw [hkw] at hlen
      have hw8 : (nc - 1) * 8 = 8 * (nc - 1) := Nat.mul_comm _ _
      omega
    have harith : pos + 4 + (nc - 1) * 8 + k * w = pos + (k + 1) * w := by
      rw [hsm]
      have hw8 : (nc - 1) * 8 = 8 * (nc - 1) := Nat.mul_comm _ _
      omega
    simp only [v1RowLoop]
    rw [afterRead_eq f pos 4 (by omega)]
    obtain ⟨mA, hA, hpA⟩ := Mat.setAt_ok m i 0
      (Cell.intVal (leVal (readN f pos 4))) (by omega) (by omega)
    rw [hA]
    simp only []
    have hfl : (fromfileDoubles f (pos + 4) (nc - 1)).1.length = nc - 1 :=
      fromfileDoubles_length f (pos + 4) (nc - 1) (by omega)
    have hfp : (fromfileDoubles f (pos + 4) (nc - 1)).2 = pos + 4 + (nc - 1) * 8 :=
      fromfileDoubles_pos f (pos + 4) (nc - 1) (by omega)
    obtain ⟨mB, hB, hpB⟩ := Mat.setRowSeg_ok mA i 1 nc
      (fromfileDoubles f (pos + 4) (nc - 1)).1
      (by rw [hpA.1]; omega)
      (by
        left
        rw [hfl, hpA.2.1, min_eq_left hcol, min_eq_left (le_trans hnc hcol)])
    rw [hB]
    simp only []
    rw [hfp]
    obtain ⟨m2, hrec⟩ := ih (i + 1) (pos + 4 + (nc - 1) * 8) mB
      (by rw [harith]; exact hlen)
      (by rw [hpB.1, hpA.1]; omega)
      (by rw [hpB.2.1, hpA.2.1]; exact hcol)
    refine ⟨m2, ?_⟩
    rw [hrec, harith]

/-- C5 (amended): for every version-1 file with a parsed header, at least one
column and the data start within the file, `row_size` is `4 + 8*(nc-1)` bytes
for source/pipeline kind and `8*nc` for plugin kind, `num_rows` is the floored
division of the remaining bytes by `row_size`, and decoding consumes exactly
`num_rows * (4 + 8*(nc-1))` bytes — the per-row read is 4 + 8*(nc-1) bytes for
EVERY kind, which equals `num_rows * row_size` only for source/pipeline kind. -/
theorem c5_v1_geometry (f : List Nat) (avail : Nat) (hdr0 : Header) (nc : Nat)
    (hph : parseHeader f = .ok hdr0)
    (hv : hdr0.version = some 1)
    (hnc : hdr0.num_columns = some nc)
    (hnc1 : 1 ≤ nc)
    (hpds : hdr0.pos_data_start.getD 0 ≤ f.length) :
    ∃ nr : Int,
      (load_data f true avail).header.bind Header.row_size
        = some (if fileTypeOf (hdr0.code.getD []) = 0 ∨ fileTypeOf (hdr0.code.getD []) = 1
            then 4 + 8 * ((nc : Int) - 1) else 8 * (nc : Int)) ∧
      (load_data f true avail).header.bind Header.num_rows = some nr ∧
      nr = Int.fdiv ((f.length : Int) - (hdr0.pos_data_start.getD 0 : Int))
        (if fileTypeOf (hdr0.code.getD []) = 0 ∨ fileTypeOf (hdr0.code.getD []) = 1
          then 4 + 8 * ((nc : Int) - 1) else 8 * (nc : Int)) ∧
      (load_data f true avail).finalPos
        = some (hdr0.pos_data_start.getD 0 + nr.toNat * (4 + 8 * (nc - 1))) := by
  obtain ⟨rsN, hRS, hwle, hrs1⟩ : ∃ rsN : Nat,
      (if fileTypeOf (hdr0.code.getD []) = 0 ∨ fileTypeOf (hdr0.code.getD []) = 1
        then 4 + 8 * ((nc : Int) - 1) else 8 * (nc : Int)) = (rsN : Int) ∧
      4 + 8 * (nc - 1) ≤ rsN ∧ 1 ≤ rsN := by
    by_cases hk : fileTypeOf (hdr0.code.getD []) = 0 ∨ fileTypeOf (hdr0.code.getD []) = 1
    · refine ⟨8 * nc - 4, ?_, by omega, by omega⟩
      rw [if_pos hk]
      omega
    · refine ⟨8 * nc, ?_, by omega, by omega⟩
      rw [if_neg hk]
      omega
  unfold load_data load_data_go
  rw [hph]
  simp only []
  rw [hnc]
  simp only [Option.getD_some]
  rw [if_pos hv, hRS]
  rw [if_neg (show ¬((rsN : Int) = 0) by omega)]
  simp only [eq_self_iff_true, if_true]
  have hnrEq : Int.fdiv ((f.length : Int) - ((hdr0.pos_data_start.getD 0 : Nat) : Int))
      ((rsN : Nat) : Int) = (((f.length - hdr0.pos_data_start.getD 0) / rsN : Nat) : Int) := by
    rw [← Int.ofNat_sub hpds, Int.fdiv_eq_tdiv (by omega) (by omega), ← Int.ofNat_tdiv]
  rw [hnrEq]
  rw [show allocate_array (((f.length - hdr0.pos_data_start.getD 0) / rsN : Nat) : Int) nc
        false avail
      = .ok (some (freshMat ((f.length - hdr0.pos_data_start.getD 0) / rsN) nc))
    from allocate_array_nat _ _ _]
  simp only []
  have hbound : hdr0.pos_data_start.getD 0 +
      ((f.length - hdr0.pos_data_start.getD 0) / rsN) * (4 + 8 * (nc - 1)) ≤ f.length := by
    have h1 : ((f.length - hdr0.pos_data_start.getD 0) / rsN) * (4 + 8 * (nc - 1))
        ≤ ((f.length - hdr0.pos_data_start.getD 0) / rsN) * rsN :=
      Nat.mul_le_mul_left _ hwle
    have h2 : ((f.length - hdr0.pos_data_start.getD 0) / rsN) * rsN
        ≤ f.length - hdr0.pos_data_start.getD 0 := Nat.div_mul_le_self _ _
    omega
  obtain ⟨m2, hloop⟩ := v1RowLoop_consume f nc (4 + 8 * (nc - 1)) hnc1 rfl
    ((f.length - hdr0.pos_data_start.getD 0) / rsN) 0 (hdr0.pos_data_start.getD 0)
    (freshMat ((f.length - hdr0.pos_data_start.getD 0) / rsN) nc)
    hbound (by simp [freshMat]) (by simp [freshMat])
  rw [show (((f.length - hdr0.pos_data_start.getD 0) / rsN : Nat) : Int).toNat
      = (f.length - hdr0.pos_data_start.getD 0) / rsN from Int.toNat_natCast _]
  rw [hloop]
  simp only []
  refine ⟨(((f.length - hdr0.pos_data_start.getD 0) / rsN : Nat) : Int), rfl, rfl, rfl, ?_⟩
  rw [show (((f.length - hdr0.pos_data_start.getD 0) / rsN : Nat) : Int).toNat
      = (f.length - hdr0.pos_data_start.getD 0) / rsN from Int.toNat_natCast _]

/-- C5 (counterexample to the unamended claim): on the version-1 plugin file
`pluginV1File` with one column, `row_size = 8` and `num_rows = 1`, but decoding
consumed only 4 bytes (final cursor 31 = 27 + 4), not
`num_rows * row_size = 8` (which would leave the cursor at 35). -/
theorem c5_counterexample :
    (load_data pluginV1File true 0).header.bind Header.row_size = some 8 ∧
    (load_data pluginV1File true 0).header.bind Header.num_rows = some 1 ∧
    (load_data pluginV1File true 0).header.bind Header.pos_data_start = some 27 ∧
    (load_data pluginV1File true 0).finalPos = some 31 ∧
    (load_data pluginV1File true 0).finalPos ≠ some (27 + 1 * 8) := by
  decide

/-- C5 (witness): on the version-1 source file `srcV1File` with two columns,
`row_size = 12`, `num_rows = 2`, and the final cursor is 27 + 2*12 = 51,
leaving the one trailing byte unread. -/
theorem c5_v1_geometry_witness :
    ∃ nr : Int,
      (load_data srcV1File true 0).header.bind Header.row_size
        = some (if fileTypeOf (srcV1Hdr.code.getD []) = 0
              ∨ fileTypeOf (srcV1Hdr.code.getD []) = 1
            then 4 + 8 * ((2 : Int) - 1) else 8 * (2 : Int)) ∧
      (load_data srcV1File true 0).header.bind Header.num_rows = some nr ∧
      nr = Int.fdiv ((srcV1File.length : Int) - (srcV1Hdr.pos_data_start.getD 0 : Int))
        (if fileTypeOf (srcV1Hdr.code.getD []) = 0
            ∨ fileTypeOf (srcV1Hdr.code.getD []) = 1
          then 4 + 8 * ((2 : Int) - 1) else 8 * (2 : Int)) ∧
      (load_data srcV1File true 0).finalPos
        = some (srcV1Hdr.pos_data_start.getD 0 + nr.toNat * (4 + 8 * (2 - 1))) :=
  c5_v1_geometry srcV1File 0 srcV1Hdr 2 (by rfl) (by decide) (by decide) (by decide)
    (by decide)

/-- `__read_packages` never alters any header field other than the two
counters: the result header agrees with the argument header on the other 18
fields, whichever pass ran. -/
theorem readPackages_hdrSame {f : List Nat} {hdr : Header} {ft : Nat} {rd : Bool}
    {avail : Nat} {r : ScanResult} (h : readPackages f hdr ft rd avail = .ok r) :
    HdrSame hdr r.hdr := by
  simp only [readPackages] at h
  generalize (if ft = 0 then
      (if (decide (ft = 0) && hdr.includes_source_input_time.getD false) = true
        then 22 else 14)
    else 12 : Nat) = P at h
  generalize (if ft = 0 then
      (if (decide (ft = 0) && hdr.includes_source_input_time.getD false) = true
        then 3 else 2)
    else 2 : Nat) = D at h
  split at h
  case isTrue hft =>
    split at h
    case isTrue hrd =>
      split at h
      case h_1 => cases h
      case h_2 hal =>
        injection h with h
        subst h
        exact hdrSame_refl hdr
      case h_3 m0 hal =>
        split at h
        case h_1 => cases h
        case h_2 st hpk =>
          injection h with h
          subst h
          have h2 : st.hdr = hdr := pkgLoop_hdr_read _ _ _ _ hpk
          show HdrSame hdr st.hdr
          rw [h2]
          exact hdrSame_refl hdr
    case isFalse hrd =>
      split at h
      case h_1 => cases h
      case h_2 st hpk =>
        injection h with h
        subst h
        exact (pkgLoop_count_frame _ _ _ _ hpk).1
  case isFalse hft =>
    injection h with h
    subst h
    exact hdrSame_refl hdr

theorem gatedOk_parse {f : List Nat} {h : Header} (hp : parseHeader f = .ok h) :
    GatedOk h := by
  obtain ⟨v, c, p, hv, hvr, hc, hfs, hpd, hple, i1, i2, i3, i4, i5, i6, hsppl,
    hrs, hnr, hts, htp, hms⟩ := parseHeader_ok hp
  exact ⟨v, c, hv, hc, i1, i2, i3, i4, i5, i6⟩

theorem gatedOk_hdrSame {g h : Header} (hs : HdrSame g h) (hg : GatedOk g) :
    GatedOk h := by
  obtain ⟨e1, e2, e3, e4, e5, e6, e7, e8, e9, e10, e11, e12, e13, e14, e15,
    e16, e17, e18⟩ := hs
  obtain ⟨v, c, hv, hc, i1, i2, i3, i4, i5, i6⟩ := hg
  exact ⟨v, c, by rw [e2]; exact hv, by rw [e3]; exact hc,
    by rw [e4]; exact i1, by rw [e5]; exact i2, by rw [e9]; exact i3,
    by rw [e10]; exact i4, by rw [e11]; exact i5, by rw [e6]; exact i6⟩

/-- C6: every header returned by `load_data` (header-only or full read, any
file) satisfies the gating round-trip: `run_start_epoch`, `file_start_epoch`,
`num_streams`, `stream_data_types` and `stream_samples_per_package` are present
iff the version is 2 or 3, and `includes_source_input_time` is present iff the
code lowercases to "src" and the version is 3; an absent field is `none`,
never a placeholder value. -/
theorem c6_gated_fields (f : List Nat) (rd : Bool) (avail : Nat) (h : Header)
    (hh : (load_data f rd avail).header = some h) :
    ∃ v c, h.version = some v ∧ h.code = some c ∧
      (h.run_start_epoch.isSome ↔ (v = 2 ∨ v = 3)) ∧
      (h.file_start_epoch.isSome ↔ (v = 2 ∨ v = 3)) ∧
      (h.num_streams.isSome ↔ (v = 2 ∨ v = 3)) ∧
      (h.stream_data_types.isSome ↔ (v = 2 ∨ v = 3)) ∧
      (h.stream_samples_per_package.isSome ↔ (v = 2 ∨ v = 3)) ∧
      (h.includes_source_input_time.isSome ↔ (pyLower c = srcCode ∧ v = 3)) := by
  unfold load_data at hh
  split at hh
  case h_2 e hgo =>
    simp only [] at hh
    cases hh
  case h_1 r hgo =>
    simp only [load_data_go] at hgo
    split at hgo
    case h_1 => cases hgo
    case h_2 hdr0 hph =>
      generalize (if fileTypeOf (hdr0.code.getD []) = 0
            ∨ fileTypeOf (hdr0.code.getD []) = 1
          then 4 + 8 * ((hdr0.num_columns.getD 0 : Int) - 1)
          else 8 * (hdr0.num_columns.getD 0 : Int)) = RS at hgo
      split at hgo
      case isTrue hv1 =>
        split at hgo
        case isTrue => cases hgo
        case isFalse hrs =>
          split at hgo
          case isTrue hrd =>
            split at hgo
            case h_1 => cases hgo
            case h_2 hal =>
              injection hgo with hgo
              subst hgo
              simp only [] at hh
              injection hh with hh
              subst hh
              have hg := gatedOk_parse hph
              exact hg
            case h_3 m0 hal =>
              split at hgo
              case h_1 => cases hgo
              case h_2 md hv =>
                injection hgo with hgo
                subst hgo
                simp only [] at hh
                injection hh with hh
                subst hh
                have hg := gatedOk_parse hph
                exact hg
          case isFalse hrd =>
            injection hgo with hgo
            subst hgo
            simp only [] at hh
            injection hh with hh
            subst hh
            have hg := gatedOk_parse hph
            exact hg
      case isFalse hv1 =>
        split at hgo
        case h_1 => cases hgo
        case h_2 s ss hspp =>
          split at hgo
          case h_1 => cases hgo
          case h_2 r1 hr1 =>
            split at hgo
            case isTrue hsucc =>
              split at hgo
              case isTrue hrd =>
                split at hgo
                case h_1 => cases hgo
                case h_2 r2 hr2 =>
                  split at hgo
                  case isTrue hsucc2 =>
                    injection hgo with hgo
                    subst hgo
                    simp only [] at hh
                    injection hh with hh
                    subst hh
                    have hg0 := gatedOk_parse hph
                    have hg1 := gatedOk_hdrSame (readPackages_hdrSame hr1) hg0
                    have hg2 := gatedOk_hdrSame (readPackages_hdrSame hr2) hg1
                    exact hg2
                  case isFalse hsucc2 =>
                    injection hgo with hgo
                    subst hgo
                    simp only [] at hh
                    injection hh with hh
                    subst hh
                    have hg0 := gatedOk_parse hph
                    have hg1 := gatedOk_hdrSame (readPackages_hdrSame hr1) hg0
                    have hg2 := gatedOk_hdrSame (readPackages_hdrSame hr2) hg1
                    exact hg2
              case isFalse hrd =>
                injection hgo with hgo
                subst hgo
                simp only [] at hh
                injection hh with hh
                subst hh
                have hg0 := gatedOk_parse hph
                have hg1 := gatedOk_hdrSame (readPackages_hdrSame hr1) hg0
                exact hg1
            case isFalse hsucc =>
              injection hgo with hgo
              subst hgo
              simp only [] at hh
              injection hh with hh
              subst hh
              have hg0 := gatedOk_parse hph
              have hg1 := gatedOk_hdrSame (readPackages_hdrSame hr1) hg0
              exact hg1

/-- C6 (witness): the header of a header-only load of `srcV3File` (version 3,
kind "src") carries all five version-gated fields and the
`includes_source_input_time` flag. -/
theorem c6_gated_fields_witness :
    ∃ v c, srcV3Hdr.version = some v ∧ srcV3Hdr.code = some c ∧
      (srcV3Hdr.run_start_epoch.isSome ↔ (v = 2 ∨ v = 3)) ∧
      (srcV3Hdr.file_start_epoch.isSome ↔ (v = 2 ∨ v = 3)) ∧
      (srcV3Hdr.num_streams.isSome ↔ (v = 2 ∨ v = 3)) ∧
      (srcV3Hdr.stream_data_types.isSome ↔ (v = 2 ∨ v = 3)) ∧
      (srcV3Hdr.stream_samples_per_package.isSome ↔ (v = 2 ∨ v = 3)) ∧
      (srcV3Hdr.includes_source_input_time.isSome ↔
        (pyLower c = srcCode ∧ v = 3)) :=
  c6_gated_fields srcV3File false 0 srcV3Hdr (by rfl)

/-- The materializing pass returns exactly the header it was given. -/
theorem readPackages_hdr_read {f : List Nat} {hdr : Header} {ft : Nat}
    {avail : Nat} {r : ScanResult} (h : readPackages f hdr ft true avail = .ok r) :
    r.hdr = hdr := by
  simp only [readPackages, eq_self_iff_true, if_true] at h
  generalize (if ft = 0 then
      (if (decide (ft = 0) && hdr.includes_source_input_time.getD false) = true
        then 22 else 14)
    else 12 : Nat) = P at h
  generalize (if ft = 0 then
      (if (decide (ft = 0) && hdr.includes_source_input_time.getD false) = true
        then 3 else 2)
    else 2 : Nat) = D at h
  split at h
  case isTrue hft =>
    split at h
    case h_1 => cases h
    case h_2 hal =>
      injection h with h
      subst h
      rfl
    case h_3 m0 hal =>
      split at h
      case h_1 => cases h
      case h_2 st hpk =>
        injection h with h
        subst h
        exact pkgLoop_hdr_read _ _ _ _ hpk
  case isFalse hft =>
    injection h with h
    subst h
    rfl

/-- C7 (amended): a header-only load (`read_data=False`) never requests an
allocation (the ghost allocation log stays empty), and whenever the full load
of the same file returns a header, the header-only load returns that very
header.  (The unamended converse fails: a full load can fail after the
header-only load succeeded.) -/
theorem c7_header_only (f : List Nat) (avail : Nat) :
    (load_data f false avail).allocs = [] ∧
    (∀ h, (load_data f true avail).header = some h →
      (load_data f false avail).header = some h) := by
  constructor
  · unfold load_data
    split
    case h_2 e hgo => rfl
    case h_1 r hgo =>
      simp only [load_data_go, Bool.false_eq_true, if_false] at hgo
      split at hgo
      case h_1 => cases hgo
      case h_2 hdr0 hph =>
        generalize (if fileTypeOf (hdr0.code.getD []) = 0
              ∨ fileTypeOf (hdr0.code.getD []) = 1
            then 4 + 8 * ((hdr0.num_columns.getD 0 : Int) - 1)
            else 8 * (hdr0.num_columns.getD 0 : Int)) = RS at hgo
        split at hgo
        case isTrue hv1 =>
          split at hgo
          case isTrue => cases hgo
          case isFalse hrs =>
            injection hgo with hgo
            subst hgo
            rfl
        case isFalse hv1 =>
          split at hgo
          case h_1 => cases hgo
          case h_2 s ss hspp =>
            split at hgo
            case h_1 => cases hgo
            case h_2 r1 hr1 =>
              split at hgo
              case isTrue hsucc =>
                injection hgo with hgo
                subst hgo
                rfl
              case isFalse hsucc =>
                injection hgo with hgo
                subst hgo
                rfl
  · intro h hh
    unfold load_data at hh ⊢
    split at hh
    case h_2 e hgo =>
      simp only [] at hh
      cases hh
    case h_1 rT hgoT =>
      simp only [load_data_go, eq_self_iff_true, if_true] at hgoT
      simp only [load_data_go, Bool.false_eq_true, if_false]
      split at hgoT
      case h_1 => cases hgoT
      case h_2 hdr0 hph =>
        generalize (if fileTypeOf (hdr0.code.getD []) = 0
              ∨ fileTypeOf (hdr0.code.getD []) = 1
            then 4 + 8 * ((hdr0.num_columns.getD 0 : Int) - 1)
            else 8 * (hdr0.num_columns.getD 0 : Int)) = RS at hgoT ⊢
        split at hgoT
        case isTrue hv1 =>
          rw [if_pos hv1]
          split at hgoT
          case isTrue hrs0 => cases hgoT
          case isFalse hrs0 =>
            rw [if_neg hrs0]
            split at hgoT
            case h_1 => cases hgoT
            case h_2 hal =>
              injection hgoT with hgoT
              subst hgoT
              simp only [] at hh
              simp only []
              exact hh
            case h_3 m0 hal =>
              split at hgoT
              case h_1 => cases hgoT
              case h_2 md hv =>
                injection hgoT with hgoT
                subst hgoT
                simp only [] at hh
                simp only []
                exact hh
        case isFalse hv1 =>
          rw [if_neg hv1]
          split at hgoT
          case h_1 => cases hgoT
          case h_2 s ss hspp =>
            split at hgoT
            case h_1 => cases hgoT
            case h_2 r1 hr1 =>
              split at hgoT
              case isTrue hsucc =>
                rw [if_pos hsucc]
                split at hgoT
                case h_1 => cases hgoT
                case h_2 r2 hr2 =>
                  have hr2hdr : r2.hdr = r1.hdr := readPackages_hdr_read hr2
                  split at hgoT
                  case isTrue hs2 =>
                    injection hgoT with hgoT
                    subst hgoT
                    simp only [] at hh
                    simp only []
                    rw [← hr2hdr]
                    exact hh
                  case isFalse hs2 =>
                    injection hgoT with hgoT
                    subst hgoT
                    simp only [] at hh
                    simp only []
                    rw [← hr2hdr]
                    exact hh
              case isFalse hsucc =>
                rw [if_neg hsucc]
                injection hgoT with hgoT
                subst hgoT
                simp only [] at hh
                simp only []
                exact hh

/-- C7 (counterexample to the unamended claim): on `chunkDiffFile` the
header-only load returns a populated header while the full load of the same
file returns no header at all, so the two runs' headers are not identical. -/
theorem c7_counterexample :
    (load_data chunkDiffFile false 0).header.isSome = true ∧
    (load_data chunkDiffFile true 0).header = none := by
  decide

/-- C7 (witness): on `flatFile` the header-only load allocates nothing and
returns the same header as the full load. -/
theorem c7_header_only_witness :
    (load_data flatFile false 0).allocs = [] ∧
    (∀ h, (load_data flatFile true 0).header = some h →
      (load_data flatFile false 0).header = some h) :=
  c7_header_only flatFile 0

/-- With `check_mem` left `False`, the allocator's result does not depend on
the available memory at all. -/
theorem allocate_array_nomem (r : Int) (c a b : Nat) :
    allocate_array r c false a = allocate_array r c false b := rfl

theorem readPackages_avail (f : List Nat) (h : Header) (ft : Nat) (rd : Bool)
    (a b : Nat) : readPackages f h ft rd a = readPackages f h ft rd b := by
  simp only [readPackages]
  rw [allocate_array_nomem _ _ a b]

theorem load_data_go_avail (f : List Nat) (rd : Bool) (a b : Nat) :
    load_data_go f rd a = load_data_go f rd b := by
  simp only [load_data_go]
  split
  case h_1 => rfl
  case h_2 hdr0 hph =>
    rw [allocate_array_nomem _ _ a b]
    by_cases hv1 : hdr0.version = some 1
    · rw [if_pos hv1, if_pos hv1]
    · rw [if_neg hv1, if_neg hv1]
      split
      next => rfl
      next s ss =>
        rw [readPackages_avail f _ _ false a b]
        split
        next => rfl
        next r1 hr1 =>
          rw [readPackages_avail f r1.hdr _ true a b]

/-- C8 (amended): the decoder leaves `check_mem` at its default `False` at both
call sites, so no memory check guards its allocations: `load_data` is entirely
independent of the available memory.  The allocator primitives themselves do
implement the check when asked: `_allocate_array` with `check_mem=True`, and
`misc.allocate_array` always, return the typed failure `None` when the
available memory does not exceed the bytes needed. -/
theorem c8_memory_check (f : List Nat) (rd : Bool) (a b rows cols : Nat)
    (hmem : a ≤ bytesNeeded rows cols) :
    load_data f rd a = load_data f rd b ∧
    allocate_array (rows : Int) cols true a = .ok none ∧
    Misc.allocate_array rows cols a = none := by
  refine ⟨?_, ?_, ?_⟩
  · unfold load_data
    rw [load_data_go_avail f rd a b]
  · unfold allocate_array
    rw [if_neg (show ¬((rows : Int) < 0) by omega),
      if_pos (show true = true ∧ a ≤ bytesNeeded (rows : Int).toNat cols from
        ⟨rfl, by rw [Int.toNat_natCast]; exact hmem⟩)]
  · unfold Misc.allocate_array
    rw [if_pos hmem]

/-- C8 (counterexample to the unamended claim): with zero available memory the
full load of `pluginV1File` still commits its allocation request (1 row × 1
column, 8 bytes needed) and returns data: no memory check happened before the
allocation. -/
theorem c8_counterexample :
    (load_data pluginV1File true 0).allocs = [(1, 1)] ∧
    (load_data pluginV1File true 0).data.isSome = true := by
  decide

/-- C8 (witness): on `flatFile` the load result is the same under 0 and 5
bytes of available memory, while the checking allocators refuse a 1×1 request
under 0 available bytes. -/
theorem c8_memory_check_witness :
    (load_data flatFile true 0 = load_data flatFile true 5 ∧
      allocate_array (1 : Int) 1 true 0 = .ok none ∧
      Misc.allocate_array 1 1 0 = none) :=
  c8_memory_check flatFile true 0 5 1 1 (by decide)

/-- C9: a version-2/3 file declaring `num_streams = 0` parses to an empty
`stream_samples_per_package` list, so line 148's `max([])` raises
`ValueError`; the blanket handler turns the whole load into `(None, None)` —
no populated header escapes. -/
theorem c9_zero_streams (f : List Nat) (rd : Bool) (avail : Nat) (hdr0 : Header)
    (hph : parseHeader f = .ok hdr0)
    (hv : hdr0.version = some 2 ∨ hdr0.version = some 3)
    (hns : hdr0.num_streams = some 0) :
    load_data f rd avail =
      { header := none, data := none, allocs := [], finalPos := none } := by
  obtain ⟨v, c, p, hv0, hvr, hc, hfs, hpd, hple, i1, i2, i3, i4, i5, i6, hsppl,
    hrs, hnr, hts, htp, hms⟩ := parseHeader_ok hph
  obtain ⟨l, hspp, hlen0⟩ := hsppl 0 hns
  have hl : l = [] := List.eq_nil_of_length_eq_zero hlen0
  subst hl
  unfold load_data load_data_go
  rw [hph]
  simp only []
  rw [if_neg (show ¬ hdr0.version = some 1 by
    rcases hv with h | h <;> rw [h] <;> simp)]
  rw [show ({ hdr0 with total_samples := some 0, total_packages := some 0 }
      : Header).stream_samples_per_package = some [] from hspp]
  rfl

/-- C9 (witness): `zeroStreamFile` is a version-2 file declaring zero streams;
its full load returns `(None, None)`. -/
theorem c9_zero_streams_witness :
    load_data zeroStreamFile true 0 =
      { header := none, data := none, allocs := [], finalPos := none } :=
  c9_zero_streams zeroStreamFile true 0 zeroStreamHdr (by rfl) (by decide) (by decide)

/-- C10 (witness): on `ascChunkFile` the loaded matrix's cell (1,2) was never
written (its chunk is one sample shorter than the package's row span) and
still reads NaN. -/
theorem c10_nan_prefill_witness :
    (1, 2) ∉ ascChunkMat.writes ∧ ascChunkMat.get 1 2 = Cell.nan := by
  refine ⟨by decide, ?_⟩
  have h : (load_data ascChunkFile true 0).data = some ascChunkMat := by rfl
  exact c10_nan_prefill ascChunkFile true 0 ascChunkMat h 1 2 (by decide)

end Palmtree
